import Mathlib

/-!
Verification of the keyframe animation engine (`src/animator.js`, with the
accessor machinery of `src/declare.js`).

The development shallowly embeds the engine:

* `getRGB` embeds the color parser `Animator.getRGB` (animator.js:307-342),
  including a faithful deterministic rendering of the backtracking search of
  the regular expression
  `rgba?\s*\(([0-9]+)\s*,\s*([0-9]+)\s*,\s*([0-9]+)\s*(?:,\s*([0-9]+))?\)`.
  For that regex every backtracking choice point is forced: the optional `a`
  is followed by `\s*\(` which can never match at a literal `a`; every `\s*`
  is followed by a token that is not whitespace; every `[0-9]+` is followed by
  a token that is not a digit; so a greedy one-pass matcher computes exactly
  the regex's verdict, and the leftmost search tries every start position.
* `easeIn`, `easeOut`, `linearTiming` embed the three closures of
  `Animator.timingFunction` (animator.js:271-301) over the reals
  (JavaScript floats idealised as real numbers).
* further sections embed the keyframe sequencer, the delta compiler and the
  frame-level playback state machine.
-/

/-! ## ColorCodec: character classes and small scanners -/

/-- Decimal digit test, the character class `[0-9]` of the source regexes
(48 and 57 are the code points of the characters 0 and 9). -/
def isDigitC (c : Char) : Bool := 48 ≤ c.toNat && c.toNat ≤ 57

/-- Hexadecimal digit test, the character class `[a-f0-9]` with the `i` flag
(animator.js:316,329); 97-102 are the code points of a-f, 65-70 of A-F. -/
def isHexDigit (c : Char) : Bool :=
  (48 ≤ c.toNat && c.toNat ≤ 57) || (97 ≤ c.toNat && c.toNat ≤ 102) ||
  (65 ≤ c.toNat && c.toNat ≤ 70)

/-- Numeric value of one hexadecimal digit (as used by `parseInt(-, 16)`). -/
def hexVal (c : Char) : Nat :=
  if 48 ≤ c.toNat && c.toNat ≤ 57 then c.toNat - 48
  else if 97 ≤ c.toNat && c.toNat ≤ 102 then c.toNat - 97 + 10
  else if 65 ≤ c.toNat && c.toNat ≤ 70 then c.toNat - 65 + 10
  else 0

/-- Value of a run of decimal digits, `parseInt(-, 10)` on an all-digit
capture group. -/
def digitsToNat (l : List Char) : Nat :=
  l.foldl (fun acc c => 10 * acc + (c.toNat - '0'.toNat)) 0

/-- JavaScript `\s` whitespace class: space, tab, LF, VT, FF, CR, NBSP,
the Unicode space separators, line and paragraph separators, NNBSP, MMSP,
ideographic space and the BOM. -/
def isJsSpace (c : Char) : Bool :=
  c.toNat = 32 || c.toNat = 9 || c.toNat = 10 || c.toNat = 11 ||
  c.toNat = 12 || c.toNat = 13 || c.toNat = 160 || c.toNat = 0x1680 ||
  (0x2000 ≤ c.toNat && c.toNat ≤ 0x200a) ||
  c.toNat = 0x2028 || c.toNat = 0x2029 || c.toNat = 0x202f ||
  c.toNat = 0x205f || c.toNat = 0x3000 || c.toNat = 0xfeff

/-- Greedy `\s*`: drop the maximal run of whitespace. -/
def skipWs : List Char → List Char
  | [] => []
  | c :: r => if isJsSpace c then skipWs r else c :: r

/-- Greedy `[0-9]*`: split off the maximal run of decimal digits. -/
def digitSpan : List Char → List Char × List Char
  | [] => ([], [])
  | c :: r =>
    if isDigitC c then
      let p := digitSpan r
      (c :: p.1, p.2)
    else ([], c :: r)

/-- Match one literal character. -/
def expectC (c : Char) : List Char → Option (List Char)
  | [] => none
  | x :: r => if x = c then some r else none

/-- Greedy `[0-9]+` followed by `parseInt` of the capture: fails on an empty
run. -/
def parseNum (l : List Char) : Option (Nat × List Char) :=
  let p := digitSpan l
  if p.1.isEmpty then none else some (digitsToNat p.1, p.2)

/-- Result of `Animator.getRGB`: a JavaScript array `[r, g, b]` or
`[r, g, b, a]`; the fourth slot of the `rgb()`/`rgba()` branch is `undefined`
when the alpha group did not participate, which we model as `none`. -/
structure Rgba where
  r : Int
  g : Int
  b : Int
  a : Option Int
  deriving DecidableEq, Repr

/-- Attempt of the rgb regex at one fixed start position.  This is the forced
backtracking of `rgba?\s*\(([0-9]+)\s*,\s*([0-9]+)\s*,\s*([0-9]+)\s*` followed
by `(?:,\s*([0-9]+))?\)` (animator.js:336): in the optional alpha group, when
the comma is present the group must finish with a digit run directly followed
by the closing parenthesis, otherwise the only remaining alternative is the
closing parenthesis at the comma itself, which fails. -/
def matchRgbAt (l : List Char) : Option Rgba :=
  match expectC 'r' l with
  | none => none
  | some l₁ =>
  match expectC 'g' l₁ with
  | none => none
  | some l₂ =>
  match expectC 'b' l₂ with
  | none => none
  | some l₃ =>
  let l₄ := match l₃ with
    | 'a' :: r => r
    | _ => l₃
  match expectC '(' (skipWs l₄) with
  | none => none
  | some l₅ =>
  match parseNum l₅ with
  | none => none
  | some (n₁, l₆) =>
  match expectC ',' (skipWs l₆) with
  | none => none
  | some l₇ =>
  match parseNum (skipWs l₇) with
  | none => none
  | some (n₂, l₈) =>
  match expectC ',' (skipWs l₈) with
  | none => none
  | some l₉ =>
  match parseNum (skipWs l₉) with
  | none => none
  | some (n₃, l₁₀) =>
  match skipWs l₁₀ with
  | ',' :: l₁₁ =>
    (match parseNum (skipWs l₁₁) with
     | none => none
     | some (n₄, l₁₂) =>
       match l₁₂ with
       | ')' :: _ => some ⟨n₁, n₂, n₃, some n₄⟩
       | _ => none)
  | rest =>
    (match rest with
     | ')' :: _ => some ⟨n₁, n₂, n₃, none⟩
     | _ => none)

/-- Leftmost regex search: `String.prototype.match` without the `g` flag tries
each start position from the left and returns the first full match. -/
def searchRgb : List Char → Option Rgba
  | [] => none
  | c :: cs =>
    match matchRgbAt (c :: cs) with
    | some v => some v
    | none => searchRgb cs

/-- Value of `parseInt(-, 16)` on a two-hex-digit capture. -/
def hex2 (a b : Char) : Int := (16 * hexVal a + hexVal b : Nat)

/-- Hash-notation branch of `Animator.getRGB` (animator.js:310-335): after
stripping `#`, a three-hex-digit string has each digit doubled
(animator.js:314-327), then the whole string must be exactly six hexadecimal
digits (animator.js:329); the hash branch never produces an alpha slot. -/
def hexParse (l : List Char) : Option Rgba :=
  let l' := match l with
    | [a, b, c] =>
      if isHexDigit a && isHexDigit b && isHexDigit c then [a, a, b, b, c, c] else [a, b, c]
    | _ => l
  match l' with
  | [a, b, c, d, e, f] =>
    if isHexDigit a && isHexDigit b && isHexDigit c &&
       isHexDigit d && isHexDigit e && isHexDigit f then
      some ⟨hex2 a b, hex2 c d, hex2 e f, none⟩
    else none
  | _ => none

/-- Fail-soft default of `Animator.getRGB` (animator.js:341): opaque white
with no alpha slot. -/
def whiteRgba : Rgba := ⟨255, 255, 255, none⟩

/-- Embedding of `Animator.getRGB` (animator.js:307-342).  The test
`style[0] == '#'` commits a string beginning with `#` to the hash branch (the
rgb regex sits in an `else if`), `style.substr(1)` is the tail, and any failed
branch falls through to the white default; an empty string fails the head test
(`undefined == '#'` is false) and its regex search fails too. -/
def getRGB (style : String) : Rgba :=
  if style.data.head? = some '#' then (hexParse style.data.tail).getD whiteRgba
  else (searchRgb style.data).getD whiteRgba

/-- Recognition predicate for the hash branch: the input starts with `#` and
the (possibly doubled) remainder is six hexadecimal digits. -/
def recognizedHex (style : String) : Prop :=
  style.data.head? = some '#' ∧ (hexParse style.data.tail).isSome = true

/-- Recognition predicate for the rgb branch: the input does not start with
`#` and the rgb regex matches somewhere in it. -/
def recognizedRgb (style : String) : Prop :=
  style.data.head? ≠ some '#' ∧ (searchRgb style.data).isSome = true

instance (s : String) : Decidable (recognizedHex s) := by
  unfold recognizedHex; infer_instance

instance (s : String) : Decidable (recognizedRgb s) := by
  unfold recognizedRgb; infer_instance

example : getRGB "#fff" = ⟨255, 255, 255, none⟩ := by decide
example : getRGB "#0a0B0c" = ⟨10, 11, 12, none⟩ := by decide
example : getRGB "rgb(10, 20, 30)" = ⟨10, 20, 30, none⟩ := by decide
example : getRGB "rgba(1,2,3,4)" = ⟨1, 2, 3, some 4⟩ := by decide
example : getRGB "rgba(10, 20, 30, 0.5)" = ⟨255, 255, 255, none⟩ := by decide
example : getRGB "blue" = ⟨255, 255, 255, none⟩ := by decide
example : getRGB "#zzz" = ⟨255, 255, 255, none⟩ := by decide
example : getRGB "xx rgb(1, 2, 3) yy" = ⟨1, 2, 3, none⟩ := by decide

/-! ## Interpolator: the three timing closures of animator.js:271-301 -/

/-- The `linear` closure (animator.js:275-277). -/
def linearTiming (progress initial delta : ℝ) : ℝ := initial + delta * progress

/-- The `ease-out` closure (animator.js:278-287); `Math.pow` on a positive
base is real exponentiation. -/
noncomputable def easeOut (progress initial delta : ℝ) : ℝ :=
  if delta > 0 then
    initial + delta - delta ^ Real.cos (progress * Real.pi / 2)
  else
    initial + delta + (-delta) ^ Real.cos (progress * Real.pi / 2)

/-- The `ease-in` closure (animator.js:288-297). -/
noncomputable def easeIn (progress initial delta : ℝ) : ℝ :=
  if delta > 0 then
    initial + delta ^ Real.sin (progress * Real.pi / 2)
  else
    initial - (-delta) ^ Real.sin (progress * Real.pi / 2)

/-! ## Scanner lemmas for the rgb regex -/

lemma skipWs_cons_of_not_space {c : Char} (t : List Char)
    (h : isJsSpace c = false) : skipWs (c :: t) = c :: t := by
  simp [skipWs, h]

lemma skipWs_cons_of_space {c : Char} (t : List Char)
    (h : isJsSpace c = true) : skipWs (c :: t) = skipWs t := by
  simp [skipWs, h]

lemma digit_not_space {c : Char} (h : isDigitC c = true) : isJsSpace c = false := by
  simp only [isDigitC, Bool.and_eq_true, decide_eq_true_eq] at h
  simp only [isJsSpace, Bool.or_eq_false_iff, Bool.and_eq_false_iff,
    decide_eq_false_iff_not]
  omega

lemma digit_ne_r {c : Char} (h : isDigitC c = true) : c ≠ 'r' := by
  simp only [isDigitC, Bool.and_eq_true, decide_eq_true_eq] at h
  intro hc
  subst hc
  simp at h

lemma digitSpan_all_digits_append {R : List Char} {c : Char} (t : List Char)
    (hR : ∀ d ∈ R, isDigitC d = true) (hc : isDigitC c = false) :
    digitSpan (R ++ c :: t) = (R, c :: t) := by
  induction R with
  | nil => simp [digitSpan, hc]
  | cons d R ih =>
    have hd : isDigitC d = true := hR d (by simp)
    simp only [List.cons_append, digitSpan, hd, if_true, List.append_eq]
    rw [ih (fun x hx => hR x (by simp [hx]))]

lemma parseNum_all_digits_append {R : List Char} {c : Char} (t : List Char)
    (hR : ∀ d ∈ R, isDigitC d = true) (hc : isDigitC c = false) (hne : R ≠ []) :
    parseNum (R ++ c :: t) = some (digitsToNat R, c :: t) := by
  simp [parseNum, digitSpan_all_digits_append t hR hc, hne]

lemma matchRgbAt_not_r {l : List Char} (h : l.head? ≠ some 'r') :
    matchRgbAt l = none := by
  cases l with
  | nil => rfl
  | cons c cs =>
    have hc : ¬ c = 'r' := by
      intro hc; exact h (by simp [hc])
    simp [matchRgbAt, expectC, hc]

lemma searchRgb_none {l : List Char} (h : ∀ c ∈ l, c ≠ 'r') :
    searchRgb l = none := by
  induction l with
  | nil => rfl
  | cons c cs ih =>
    have hc : c ≠ 'r' := h c (by simp)
    rw [searchRgb, matchRgbAt_not_r (by simp [hc]), ih]
    exact fun x hx => h x (by simp [hx])

lemma skipWs_digits_append {G : List Char} (t : List Char)
    (hG : ∀ c ∈ G, isDigitC c = true) (hne : G ≠ []) :
    skipWs (G ++ t) = G ++ t := by
  cases G with
  | nil => exact absurd rfl hne
  | cons g G' =>
    rw [List.cons_append]
    exact skipWs_cons_of_not_space _ (digit_not_space (hG g (by simp)))

/-! ## Claim theorems about the Interpolator (C1) -/

/-- C1 counterexample: the spec asserts boundary closure
`ease-in(0, i, d) = i` for every nonzero delta; at the concrete input
`i = 0`, `d = 2` the code computes `0 + 2^sin(0) = 2^0 = 1`, not `0`. -/
theorem easeIn_boundary_cex : easeIn 0 0 2 = 1 ∧ (1 : ℝ) ≠ 0 := by
  constructor
  · rw [easeIn, if_pos (by norm_num)]
    norm_num [Real.rpow_zero]
  · norm_num

/-- C1 amended: for every initial value and nonzero delta, only half of the
claimed boundary closure holds: `ease-in(1, i, d) = i + d` and
`ease-out(0, i, d) = i` are exact, but since the exponent at the other
endpoint is `sin 0 = 0` (resp. `cos(pi/2) = 0`) and `x^0 = 1`, the code gives
`ease-in(0, i, d) = i + 1` for positive delta and `i - 1` for negative delta,
and `ease-out(1, i, d) = i + d - 1` for positive delta and `i + d + 1` for
negative delta. -/
theorem ease_boundary_amended (i d : ℝ) (hd : d ≠ 0) :
    easeIn 1 i d = i + d ∧ easeOut 0 i d = i ∧
    easeIn 0 i d = i + (if 0 < d then 1 else -1) ∧
    easeOut 1 i d = i + d - (if 0 < d then 1 else -1) := by
  have hsin1 : Real.sin (1 * Real.pi / 2) = 1 := by
    rw [one_mul]; exact Real.sin_pi_div_two
  have hcos1 : Real.cos (1 * Real.pi / 2) = 0 := by
    rw [one_mul]; exact Real.cos_pi_div_two
  have hsin0 : Real.sin (0 * Real.pi / 2) = 0 := by
    rw [zero_mul, zero_div]; exact Real.sin_zero
  have hcos0 : Real.cos (0 * Real.pi / 2) = 1 := by
    rw [zero_mul, zero_div]; exact Real.cos_zero
  rcases hd.lt_or_lt with hneg | hpos
  · have hnp : ¬ d > 0 := not_lt_of_gt hneg
    refine ⟨?_, ?_, ?_, ?_⟩
    · rw [easeIn, if_neg hnp, hsin1, Real.rpow_one]; ring
    · rw [easeOut, if_neg hnp, hcos0, Real.rpow_one]; ring
    · rw [easeIn, if_neg hnp, hsin0, Real.rpow_zero, if_neg (not_lt_of_gt hneg)]
      ring
    · rw [easeOut, if_neg hnp, hcos1, Real.rpow_zero, if_neg (not_lt_of_gt hneg)]
      ring
  · refine ⟨?_, ?_, ?_, ?_⟩
    · rw [easeIn, if_pos hpos, hsin1, Real.rpow_one]
    · rw [easeOut, if_pos hpos, hcos0, Real.rpow_one]; ring
    · rw [easeIn, if_pos hpos, hsin0, Real.rpow_zero, if_pos hpos]
    · rw [easeOut, if_pos hpos, hcos1, Real.rpow_zero, if_pos hpos]

/-- C1 amended, witness at `i = 3`, `d = 2`. -/
theorem ease_boundary_amended_witness :
    (2 : ℝ) ≠ 0 ∧
      (easeIn 1 3 2 = 3 + 2 ∧ easeOut 0 3 2 = 3 ∧
       easeIn 0 3 2 = 3 + (if (0 : ℝ) < 2 then 1 else -1) ∧
       easeOut 1 3 2 = 3 + 2 - (if (0 : ℝ) < 2 then 1 else -1)) :=
  ⟨by norm_num, ease_boundary_amended 3 2 (by norm_num)⟩

/-! ## Claim theorems about the ColorCodec (C3, C8) -/

/-- C3 counterexample: on the concrete fractional-alpha input
`rgba(10, 20, 30, 0.5)` the parser does not return four integer-parsed
channels (which would be `[10, 20, 30, 0]` under alpha truncation): the alpha
capture group `[0-9]+` must be followed directly by the closing parenthesis,
so the regex fails to match and the fail-soft white default is returned. -/
theorem getRGB_fractional_alpha_cex :
    getRGB "rgba(10, 20, 30, 0.5)" = whiteRgba ∧
      whiteRgba ≠ ({ r := 10, g := 20, b := 30, a := some 0 } : Rgba) := by
  constructor
  · decide
  · decide

/-- C3 amended: for every input string of the form `rgba(r, g, b, a)` whose
alpha is a fractional decimal (an integer part, a dot, then more digits), the
rgba regex does not match, because the alpha capture only accepts an integer
run of digits immediately followed by the closing parenthesis; so the parser
takes the fail-soft fallback branch and returns `[255, 255, 255]` with no
alpha — it does not integer-parse or truncate the alpha. -/
theorem getRGB_fractional_alpha_fallback (R G B A F : List Char)
    (hR : ∀ c ∈ R, isDigitC c = true) (hRne : R ≠ [])
    (hG : ∀ c ∈ G, isDigitC c = true) (hGne : G ≠ [])
    (hB : ∀ c ∈ B, isDigitC c = true) (hBne : B ≠ [])
    (hA : ∀ c ∈ A, isDigitC c = true) (hAne : A ≠ [])
    (hF : ∀ c ∈ F, isDigitC c = true) :
    getRGB ⟨'r' :: 'g' :: 'b' :: 'a' :: '(' ::
      (R ++ ',' :: ' ' :: (G ++ ',' :: ' ' :: (B ++ ',' :: ' ' ::
        (A ++ '.' :: (F ++ [')'])))))⟩ = whiteRgba := by
  have w1 : isJsSpace ' ' = true := by decide
  have w2 : isJsSpace '(' = false := by decide
  have w3 : isJsSpace ',' = false := by decide
  have dcomma : isDigitC ',' = false := by decide
  have ddot : isDigitC '.' = false := by decide
  have pR := parseNum_all_digits_append
    (' ' :: (G ++ ',' :: ' ' :: (B ++ ',' :: ' ' ::
      (A ++ '.' :: (F ++ [')']))))) hR dcomma hRne
  have pG := parseNum_all_digits_append
    (' ' :: (B ++ ',' :: ' ' :: (A ++ '.' :: (F ++ [')'])))) hG dcomma hGne
  have pB := parseNum_all_digits_append
    (' ' :: (A ++ '.' :: (F ++ [')'])))  hB dcomma hBne
  have pA := parseNum_all_digits_append (F ++ [')']) hA ddot hAne
  have hmatch : matchRgbAt ('r' :: 'g' :: 'b' :: 'a' :: '(' ::
      (R ++ ',' :: ' ' :: (G ++ ',' :: ' ' :: (B ++ ',' :: ' ' ::
        (A ++ '.' :: (F ++ [')'])))))) = none := by
    simp only [matchRgbAt, expectC, if_pos, if_true, eq_self_iff_true]
    simp only [skipWs_cons_of_not_space _ w2, expectC, if_true, eq_self_iff_true]
    rw [pR]
    simp only [skipWs_cons_of_not_space _ w3, expectC, if_true, eq_self_iff_true,
      skipWs_cons_of_space _ w1]
    rw [skipWs_digits_append _ hG hGne, pG]
    simp only [skipWs_cons_of_not_space _ w3, expectC, if_true, eq_self_iff_true,
      skipWs_cons_of_space _ w1]
    rw [skipWs_digits_append _ hB hBne, pB]
    simp only [skipWs_cons_of_not_space _ w3, skipWs_cons_of_space _ w1]
    rw [skipWs_digits_append _ hA hAne, pA]
    simp
  have hnor : ∀ c ∈ ('g' :: 'b' :: 'a' :: '(' ::
      (R ++ ',' :: ' ' :: (G ++ ',' :: ' ' :: (B ++ ',' :: ' ' ::
        (A ++ '.' :: (F ++ [')'])))))), c ≠ 'r' := by
    intro c hc
    simp only [List.mem_cons, List.mem_append] at hc
    rcases hc with rfl | rfl | rfl | rfl | h
    · decide
    · decide
    · decide
    · decide
    rcases h with h | h
    · exact digit_ne_r (hR _ h)
    rcases h with rfl | rfl | h
    · decide
    · decide
    rcases h with h | h
    · exact digit_ne_r (hG _ h)
    rcases h with rfl | rfl | h
    · decide
    · decide
    rcases h with h | h
    · exact digit_ne_r (hB _ h)
    rcases h with rfl | rfl | h
    · decide
    · decide
    rcases h with h | h
    · exact digit_ne_r (hA _ h)
    rcases h with rfl | h
    · decide
    rcases h with h | h
    · exact digit_ne_r (hF _ h)
    rcases h with rfl | h
    · decide
    simp at h
  rw [getRGB, if_neg (by simp)]
  rw [show (String.mk ('r' :: 'g' :: 'b' :: 'a' :: '(' ::
      (R ++ ',' :: ' ' :: (G ++ ',' :: ' ' :: (B ++ ',' :: ' ' ::
        (A ++ '.' :: (F ++ [')']))))))).data
      = 'r' :: 'g' :: 'b' :: 'a' :: '(' ::
      (R ++ ',' :: ' ' :: (G ++ ',' :: ' ' :: (B ++ ',' :: ' ' ::
        (A ++ '.' :: (F ++ [')']))))) from rfl]
  rw [searchRgb, hmatch, searchRgb_none hnor]
  rfl

/-- C3 amended, witness at the concrete input `rgba(10, 20, 30, 0.5)`. -/
theorem getRGB_fractional_alpha_fallback_witness :
    ((∀ c ∈ ['1', '0'], isDigitC c = true) ∧ ['1', '0'] ≠ [] ∧
     (∀ c ∈ ['2', '0'], isDigitC c = true) ∧ ['2', '0'] ≠ [] ∧
     (∀ c ∈ ['3', '0'], isDigitC c = true) ∧ ['3', '0'] ≠ [] ∧
     (∀ c ∈ ['0'], isDigitC c = true) ∧ ['0'] ≠ [] ∧
     (∀ c ∈ ['5'], isDigitC c = true)) ∧
    getRGB ⟨'r' :: 'g' :: 'b' :: 'a' :: '(' ::
      (['1', '0'] ++ ',' :: ' ' :: (['2', '0'] ++ ',' :: ' ' ::
        (['3', '0'] ++ ',' :: ' ' ::
          (['0'] ++ '.' :: (['5'] ++ [')'])))))⟩ = whiteRgba :=
  ⟨⟨by decide, by decide, by decide, by decide, by decide, by decide,
    by decide, by decide, by decide⟩,
   getRGB_fractional_alpha_fallback ['1', '0'] ['2', '0'] ['3', '0'] ['0'] ['5']
     (by decide) (by decide) (by decide) (by decide) (by decide)
     (by decide) (by decide) (by decide) (by decide)⟩

/-- C8: the color parser is total by construction (every code path of
`getRGB` returns an array and none throws), and on every input that is
recognized neither by the hash branch nor by the rgb regex branch it returns
the fail-soft default `[255, 255, 255]` with no alpha slot. -/
theorem getRGB_fail_soft (s : String)
    (h₁ : ¬ recognizedHex s) (h₂ : ¬ recognizedRgb s) :
    getRGB s = whiteRgba := by
  unfold getRGB
  by_cases hc : s.data.head? = some '#'
  · rw [if_pos hc]
    cases hx : hexParse s.data.tail with
    | none => rfl
    | some v => exact absurd ⟨hc, by rw [hx]; rfl⟩ h₁
  · rw [if_neg hc]
    cases hx : searchRgb s.data with
    | none => rfl
    | some v => exact absurd ⟨hc, by rw [hx]; rfl⟩ h₂

/-- C8 witness at the concrete unrecognized input `blue`. -/
theorem getRGB_fail_soft_witness :
    (¬ recognizedHex "blue") ∧ (¬ recognizedRgb "blue") ∧
      getRGB "blue" = whiteRgba :=
  ⟨by decide, by decide, getRGB_fail_soft "blue" (by decide) (by decide)⟩

/-! ## JavaScript value model

Keyframes are JavaScript objects: ordered association lists from property
names to values.  JavaScript numbers are idealised as rationals; `NaN` is
modelled as `none` in `Option` arithmetic where it can arise. -/

/-- A JavaScript value as stored in a keyframe slot. -/
inductive JsVal where
  | undef
  | num (n : Int)
  | str (s : String)
  deriving DecidableEq, Repr

/-- JavaScript truthiness of a stored keyframe value (the values stored by
this engine are never `NaN`, so a number is falsy exactly when it is 0). -/
def truthy : JsVal → Bool
  | .undef => false
  | .num n => n ≠ 0
  | .str s => s ≠ ""

/-- JavaScript strict equality on the values this engine compares. -/
def jsStrictEq : JsVal → JsVal → Bool
  | .undef, .undef => true
  | .num a, .num b => a == b
  | .str a, .str b => a == b
  | _, _ => false

/-- JavaScript `parseInt(s, 10)`: skip leading whitespace, take an optional
sign and a leading run of decimal digits; `NaN` (`none`) when no digit
follows. -/
def parseIntJs (s : String) : Option Int :=
  match skipWs s.data with
  | '-' :: r =>
    let p := digitSpan r
    if p.1.isEmpty then none else some (-(digitsToNat p.1 : Int))
  | '+' :: r =>
    let p := digitSpan r
    if p.1.isEmpty then none else some ((digitsToNat p.1 : Int))
  | r =>
    let p := digitSpan r
    if p.1.isEmpty then none else some ((digitsToNat p.1 : Int))

/-- JavaScript `parseInt(v, 10)` on an arbitrary value: the argument is first
coerced to a string; the number values held by this engine are integral, so a
number renders as its decimal digits and parses back unchanged, and
`undefined` renders as the word undefined, which parses to `NaN`. -/
def parseIntVal : JsVal → Option Int
  | .undef => none
  | .num n => some n
  | .str s => parseIntJs s

/-- Decimal literal (digits, optionally a dot and more digits, at least one
digit in total), the core of JavaScript `ToNumber` on the strings this
engine meets; exponent, hexadecimal and Infinity forms are outside the
modelled fragment. -/
def decimalOfChars (l : List Char) : Option ℚ :=
  let ip := digitSpan l
  match ip.2 with
  | [] => if ip.1.isEmpty then none else some (digitsToNat ip.1 : ℚ)
  | '.' :: r2 =>
    let fp := digitSpan r2
    if fp.2.isEmpty && !(ip.1.isEmpty && fp.1.isEmpty) then
      some ((digitsToNat ip.1 : ℚ) + (digitsToNat fp.1 : ℚ) / ((10 : ℚ) ^ fp.1.length))
    else none
  | _ => none

/-- JavaScript `ToNumber` on a string (decimal fragment): trim whitespace at
both ends, an empty remainder is 0, otherwise an optionally signed decimal
literal; anything else is `NaN`. -/
def numberOfString (s : String) : Option ℚ :=
  match (skipWs ((skipWs s.data.reverse).reverse)) with
  | [] => some 0
  | '-' :: r => (decimalOfChars r).map (fun q => -q)
  | '+' :: r => decimalOfChars r
  | l => decimalOfChars l

/-- JavaScript `ToNumber` as applied by the subtraction operator. -/
def jsToNumber : JsVal → Option ℚ
  | .undef => none
  | .num n => some (n : ℚ)
  | .str s => numberOfString s

/-- NaN-propagating subtraction. -/
def subNum : Option ℚ → Option ℚ → Option ℚ
  | some a, some b => some (a - b)
  | _, _ => none

/-! ## Property tables and string utilities of the Animator class -/

/-- `KEYFRAME_CONFIG_PROPERTIES` (animator.js:33). -/
def KEYFRAME_CONFIG_PROPERTIES : List String := ["duration", "timing"]

/-- `KEYFRAME_ANIMATION_PROPERTIES`, the animatable whitelist
(animator.js:38-44). -/
def KEYFRAME_ANIMATION_PROPERTIES : List String :=
  ["width", "height", "left", "top", "color", "backgroundColor",
   "paddingLeft", "paddingRight", "paddingTop", "paddingBottom",
   "marginLeft", "marginRight", "marginTop", "marginBottom",
   "borderColor", "borderLeftColor", "borderRightColor", "borderTopColor",
   "borderBottomColor",
   "borderWidth", "borderLeftWidth", "borderRightWidth", "borderTopWidth",
   "borderBottomWidth"]

/-- `Animator.camelcaseString` (animator.js:414-418): the global replacement
of `-[a-z]` by the un-hyphenated uppercase letter (JavaScript `toUpperCase`
on a-z subtracts 32 from the code point), scanning left to right without
overlap; 97-122 are the code points of a-z. -/
def camelChars : List Char → List Char
  | [] => []
  | c :: r =>
    if c = '-' then
      match r with
      | [] => ['-']
      | b :: r₂ =>
        if 97 ≤ b.toNat && b.toNat ≤ 122 then
          Char.ofNat (b.toNat - 32) :: camelChars r₂
        else '-' :: camelChars (b :: r₂)
    else c :: camelChars r

/-- String-level wrapper of `camelChars`. -/
def camelcaseString (s : String) : String := ⟨camelChars s.data⟩

/-- The `multiProperties` shorthand table of `Animator.getStyle`
(animator.js:348-351). -/
def multiProperties (camel : String) : Option (List String) :=
  if camel = "borderWidth" then
    some ["borderTopWidth", "borderRightWidth", "borderBottomWidth", "borderLeftWidth"]
  else if camel = "borderColor" then
    some ["borderTopColor", "borderRightColor", "borderBottomColor", "borderLeftColor"]
  else none

/-- The single-property branch of `Animator.getStyle` (animator.js:371-386):
one pair keyed by the camel-cased name.  The chain of element reads
(`el.style[camel]`, `currentStyle[hyphen]`, `getComputedStyle`) is the
external StyleAccessor; it is abstracted as one raw read keyed by the
camel-cased property name. -/
def getStyleBase (read : String → String) (style : String) : List (String × String) :=
  [(camelcaseString style, read (camelcaseString style))]

/-- Embedding of `Animator.getStyle` (animator.js:347-387).  For a shorthand
name the source recurses with `this.getStyle(name)[name]` on each edge name;
no edge name is itself a shorthand key and every edge name is already
camel-cased, so that inner call resolves to the raw read of the edge name. -/
def getStyle (read : String → String) (style : String) : List (String × String) :=
  match multiProperties (camelcaseString style) with
  | some names => names.map (fun n => (n, read n))
  | none => getStyleBase read style

/-! ## Keyframes as ordered association lists -/

/-- A keyframe: a JavaScript object in insertion order. -/
abbrev Keyframe := List (String × JsVal)

/-- Object property read, `frame[name]`: `undefined` when absent. -/
def lookupKF (f : Keyframe) (n : String) : JsVal := ((f.find? (fun p => p.1 = n)).map Prod.snd).getD (.undef : JsVal)

/-- Object property write, `frame[name] = v`: overwrite in place, else append
(JavaScript keeps the original insertion position on overwrite). -/
def setKF : Keyframe → String → JsVal → Keyframe
  | [], n, v => [(n, v)]
  | (k, w) :: r, n, v => if k = n then (k, v) :: r else (k, w) :: setKF r n v

/-! ## DeltaCompiler (animator.js:144-202) -/

/-- An exact per-channel record (color channels, which are never `NaN`). -/
structure QRec where
  delta : ℚ
  initial : ℚ
  deriving DecidableEq, Repr

/-- A color delta record: three channel records and an optional alpha record
(`deltas[styleName].a`), absent when the alpha branch was not taken. -/
structure ColorDRec where
  r : QRec
  g : QRec
  b : QRec
  a : Option QRec
  deriving DecidableEq, Repr

/-- One compiled delta: a scalar channel (whose parts may be `NaN` in the
width/height branch, where the target value is not integer-coerced) or a
color record. -/
inductive DeltaEntry where
  | scalar (delta initial : Option ℚ)
  | color (c : ColorDRec)
  deriving DecidableEq, Repr

/-- The compiled `deltas` object, in insertion order. -/
abbrev Deltas := List (String × DeltaEntry)

/-- Object write on the deltas map. -/
def setDelta : Deltas → String → DeltaEntry → Deltas
  | [], n, v => [(n, v)]
  | (k, w) :: r, n, v => if k = n then (k, v) :: r else (k, w) :: setDelta r n v

/-- The test `name.match(/color$/i)` (animator.js:157): the name ends with
the five letters c-o-l-o-r, case-insensitively. -/
def endsWithColor (name : String) : Bool :=
  match name.data.reverse with
  | r :: o :: l :: o₂ :: c :: _ =>
    (r = 'r' || r = 'R') && (o = 'o' || o = 'O') && (l = 'l' || l = 'L') &&
    (o₂ = 'o' || o₂ = 'O') && (c = 'c' || c = 'C')
  | _ => false

/-- The thrown values of the engine.  The source throws strings; they are
modelled as tagged errors rendered by `errMsg`.  A `typeErr` is the JavaScript
TypeError raised when `getRGB` receives a non-string keyframe target (calling
`match` on it). -/
inductive AnimErr where
  | noElement
  | noKeyframes
  | notAnimatable (name : String)
  | typeErr
  deriving DecidableEq, Repr

/-- The exact thrown strings (animator.js:82-83,150). -/
def errMsg : AnimErr → String
  | .noElement => "No element specified"
  | .noKeyframes => "No keyframes specified"
  | .notAnimatable n =>
    "Property " ++ n ++ " could not be animated. Animateable properties: " ++
      String.intercalate ", " KEYFRAME_ANIMATION_PROPERTIES
  | .typeErr => "TypeError"

/-- The external element state: the raw style read underlying StyleAccessor
and the measured offset box of the target. -/
structure ElementEnv where
  read : String → String
  offsetWidth : ℚ
  offsetHeight : ℚ

/-- Integer parse of a raw style read, viewed as a rational for the
NaN-propagating box arithmetic. -/
def parseIntQ (s : String) : Option ℚ := (parseIntJs s).map (fun n => (n : ℚ))

/-- `Animator.getInnerWidth` (animator.js:392-398): offset width minus the
integer-parsed horizontal paddings and border widths; each
`this.getStyle('padding-left')['paddingLeft']` resolves to the raw read of
the camel-cased name. -/
def getInnerWidth (env : ElementEnv) : Option ℚ :=
  subNum (subNum (subNum (subNum (some env.offsetWidth)
    (parseIntQ (env.read "paddingLeft")))
    (parseIntQ (env.read "paddingRight")))
    (parseIntQ (env.read "borderLeftWidth")))
    (parseIntQ (env.read "borderRightWidth"))

/-- `Animator.getInnerHeight` (animator.js:403-409). -/
def getInnerHeight (env : ElementEnv) : Option ℚ :=
  subNum (subNum (subNum (subNum (some env.offsetHeight)
    (parseIntQ (env.read "paddingTop")))
    (parseIntQ (env.read "paddingBottom")))
    (parseIntQ (env.read "borderTopWidth")))
    (parseIntQ (env.read "borderBottomWidth"))

/-- View of an `rgbSource[3]`/`rgbTarget[3]` array slot as a JavaScript
value. -/
def toJsValOptInt : Option Int → JsVal
  | some n => .num n
  | none => (.undef : JsVal)

/-- One color delta record (animator.js:185-199).  The guard of the alpha
part is the source's `typeof rgbTarget[3] !== 'undefined' ||
rgbSource[3] !== 'undefined'`: note the second disjunct compares the alpha
value itself (a number or `undefined`) with the string literal under strict
inequality.  When the guard holds, each missing alpha defaults to 1 before
differencing. -/
def compileColor (src tgt : Rgba) : ColorDRec :=
  let base : ColorDRec :=
    { r := { delta := ((tgt.r - src.r : Int) : ℚ), initial := ((src.r : Int) : ℚ) }
      g := { delta := ((tgt.g - src.g : Int) : ℚ), initial := ((src.g : Int) : ℚ) }
      b := { delta := ((tgt.b - src.b : Int) : ℚ), initial := ((src.b : Int) : ℚ) }
      a := none }
  if tgt.a.isSome || !(jsStrictEq (toJsValOptInt src.a) (.str "undefined")) then
    let tA : ℚ := ((tgt.a.getD 1 : Int) : ℚ)
    let sA : ℚ := ((src.a.getD 1 : Int) : ℚ)
    { base with a := some { delta := tA - sA, initial := sA } }
  else base

/-- Compilation of one non-config keyframe property (animator.js:146-201):
whitelist check, then the width/height, scalar or color branch.  In the
scalar branch both sides are integer-coerced with `NaN` mapped to 0; in the
width/height branch the keyframe target is used raw by the subtraction
(`frame[name] - size`), so a non-numeric target yields `NaN`.  In the color
branch a non-string keyframe target makes `getRGB` throw a TypeError. -/
def compileProp (env : ElementEnv) (deltas : Deltas) (name : String)
    (v : JsVal) : Except AnimErr Deltas :=
  if name ∉ KEYFRAME_ANIMATION_PROPERTIES then
    .error (.notAnimatable name)
  else if name = "width" || name = "height" then
    let size := if name = "width" then getInnerWidth env else getInnerHeight env
    .ok (setDelta deltas name (.scalar (subNum (jsToNumber v) size) size))
  else if endsWithColor name = false then
    .ok ((getStyle env.read name).foldl (fun ds p =>
      let v₀ := (parseIntJs p.2).getD 0
      let fv := (parseIntVal v).getD 0
      setDelta ds p.1 (.scalar (some ((fv - v₀ : Int) : ℚ)) (some ((v₀ : Int) : ℚ)))) deltas)
  else
    match v with
    | .str s =>
      .ok ((getStyle env.read name).foldl (fun ds p =>
        setDelta ds p.1 (.color (compileColor (getRGB p.2) (getRGB s)))) deltas)
    | _ => .error .typeErr

/-- One iteration of the delta-compilation loop: a previously thrown error
propagates (the loop is not resumed), a config property is skipped, any other
property is compiled. -/
def compileStep (env : ElementEnv) (acc : Except AnimErr Deltas)
    (p : String × JsVal) : Except AnimErr Deltas :=
  match acc with
  | .error e => .error e
  | .ok ds =>
    if p.1 ∈ KEYFRAME_CONFIG_PROPERTIES then .ok ds
    else compileProp env ds p.1 p.2

/-- The delta-compilation loop of `animateKeyframe` (animator.js:144-202):
iterate the frame's own properties in insertion order, skip the two config
properties, and abort on the first thrown error. -/
def compileFrame (env : ElementEnv) (frame : Keyframe) : Except AnimErr Deltas :=
  frame.foldl (compileStep env) (.ok [])

/-! ## Style-write rendering of one tick (animator.js:220-241, color part) -/

/-- The dispatch of `Animator.timingFunction` (animator.js:271-301):
`timing = timing || this.timing`, then the closure table; an unrecognized
resolved name means indexing the table yields `undefined` and calling it
throws, modelled as `none`. -/
noncomputable def timingFunction (timing : JsVal) (defTiming : String)
    (progress initial delta : ℝ) : Option ℝ :=
  let t : JsVal := if truthy timing then timing else .str defTiming
  match t with
  | .str "linear" => some (linearTiming progress initial delta)
  | .str "ease-out" => some (easeOut progress initial delta)
  | .str "ease-in" => some (easeIn progress initial delta)
  | _ => none

/-- JavaScript `Math.round`: half-up rounding. -/
noncomputable def jsRound (x : ℝ) : Int := Int.floor (x + 1 / 2)

/-- The string written to `element.style` for one channel. -/
inductive StyleWrite where
  | rgbaStr (r g b : Int) (a : ℝ)
  | rgbStr (r g b : Int)
  | px (n : Int)

/-- The color-channel write of one tick (animator.js:226-235): interpolate
r, g and b with the frame's timing, and, exactly when the compiled record has
an alpha part, interpolate alpha with the fixed `linear` curve and emit an
`rgba()` string, else an `rgb()` string. -/
noncomputable def emitColor (frameTiming : JsVal) (defTiming : String)
    (progress : ℝ) (d : ColorDRec) : Option StyleWrite :=
  match timingFunction frameTiming defTiming progress d.r.initial d.r.delta,
        timingFunction frameTiming defTiming progress d.g.initial d.g.delta,
        timingFunction frameTiming defTiming progress d.b.initial d.b.delta with
  | some r, some g, some b =>
    match d.a with
    | some arec =>
      match timingFunction (.str "linear") defTiming progress arec.initial arec.delta with
      | some av => some (.rgbaStr (jsRound r) (jsRound g) (jsRound b) av)
      | none => none
    | none => some (.rgbStr (jsRound r) (jsRound g) (jsRound b))
  | _, _, _ => none

/-- Holds when an emitted color write is never a plain `rgb()` string. -/
def neverPlainRgb : Option StyleWrite → Prop
  | some (.rgbStr _ _ _) => False
  | _ => True

/-! ## KeyframeSequencer and PlaybackController -/

/-- Lifecycle events, in emission order.  The frame payloads of the keyframe
events are identified by index. -/
inductive AnimEvent where
  | animationBegin
  | animationEnd
  | keyframeBegin (i : Nat)
  | keyframeEnd (i : Nat)
  deriving DecidableEq, Repr

/-- Status of a playback: still running, completed, silently stopped (the
`if (!frame) return` guard of animator.js:142), or aborted by a thrown
error. -/
inductive AnimStatus where
  | running
  | done
  | stopped
  | failed (e : AnimErr)
  deriving DecidableEq, Repr

/-- The configuration surface of one `Animator` instance after
`configure(options)` (animator.js:49-69 defaults, assigned through
the generated setters of declare.js:195-197 by declare.js:438-454).
The element handle only matters through its truthiness here. -/
structure AnimConfig where
  hasElement : Bool
  loops : Int
  keyframes : List Keyframe
  timing : String
  duration : Int
  deriving DecidableEq, Repr

/-- The class-definition default of `loops` (animator.js:54).  The generated
`resetLoops` accessor (declare.js:203-205) assigns `definition[name]`, the
value written in the class definition itself, not the per-instance configured
value. -/
def animatorDefinitionLoops : Int := 0

/-- Mutable playback state at frame granularity: the sequenced keyframe list,
the live `this.loops` counter, the current frame index, the emitted event
trace and the status. -/
structure AnimState where
  keyframes : List Keyframe
  loops : Int
  frameIndex : Nat
  events : List AnimEvent
  status : AnimStatus
  deriving DecidableEq, Repr

/-- The generated `resetLoops()` accessor (declare.js:203-205): assign the
class-definition default. -/
def resetLoops (s : AnimState) : AnimState := { s with loops := animatorDefinitionLoops }

/-- Entry into `animateKeyframe(i)` up to the first tick request
(animator.js:140-210): missing frame means a silent return; then the delta
compilation, whose thrown error aborts playback before `onKeyframeBegin`
fires; on success `KeyframeBegin(i)` fires. -/
def enterFrame (env : ElementEnv) (s : AnimState) (i : Nat) : AnimState :=
  match s.keyframes.get? i with
  | none => { s with status := .stopped }
  | some frame =>
    match compileFrame env frame with
    | .error e => { s with frameIndex := i, status := .failed e }
    | .ok _ => { s with frameIndex := i, events := s.events ++ [.keyframeBegin i] }

/-- The frame-completion transition (animator.js:247-264), taken when a
frame's progress reaches 1: fire `KeyframeEnd`, then either advance to the
next frame, or at the last frame decrement `this.loops` and replay from frame
0 if the result is positive, else call `resetLoops()` and fire
`AnimationEnd`. -/
def completeFrame (env : ElementEnv) (s : AnimState) : AnimState :=
  match s.status with
  | .running =>
    let s₁ := { s with events := s.events ++ [.keyframeEnd s.frameIndex] }
    if s.frameIndex < s.keyframes.length - 1 then
      enterFrame env s₁ (s.frameIndex + 1)
    else
      let l' := s.loops - 1
      if l' > 0 then enterFrame env { s₁ with loops := l' } 0
      else
        let s₂ := resetLoops { s₁ with loops := l' }
        { s₂ with status := .done, events := s₂.events ++ [.animationEnd] }
  | _ => s

/-- The synthetic closing keyframe capture for one original frame
(animator.js:90-107, inner loops): for each own property name, skip it if the
frame under construction already holds a truthy value for that name, else
capture every concrete style the accessor reports for it, integer-coercing
parseable values and keeping raw strings otherwise
(`isNaN(n) ? v : n`, animator.js:102-105). -/
def coerceStyleVal (v : String) : JsVal :=
  match parseIntJs v with
  | some k => .num k
  | none => .str v

def captureStyles (extra : Keyframe) (styles : List (String × String)) : Keyframe :=
  styles.foldl (fun e p => setKF e p.1 (coerceStyleVal p.2)) extra

/-- The per-frame outer loop of the synthetic keyframe build
(animator.js:92-107). -/
def extraStep (read : String → String) (e : Keyframe) (p : String × JsVal) : Keyframe :=
  if truthy (lookupKF e p.1) then e
  else captureStyles e (getStyle read p.1)

def addFrameNames (read : String → String) (extra : Keyframe) (frame : Keyframe) :
    Keyframe :=
  frame.foldl (extraStep read) extra

/-- The complete synthetic closing keyframe (animator.js:85-113): capture the
current styles of every property name of every original keyframe (the length
is read before the push), then set `duration` and `timing` from the Animation
defaults with the falsy-fallback to the first keyframe's own values. -/
def buildExtraFrame (read : String → String) (cfg : AnimConfig) : Keyframe :=
  let base := cfg.keyframes.foldl (addFrameNames read) []
  let d := if cfg.duration ≠ 0 then JsVal.num cfg.duration
           else lookupKF (cfg.keyframes.headD []) "duration"
  let t := if cfg.timing ≠ "" then JsVal.str cfg.timing
           else lookupKF (cfg.keyframes.headD []) "timing"
  setKF (setKF base "duration" d) "timing" t

/-- The sequenced frame list: the synthetic closing keyframe is pushed
exactly once, only when `loops > 0` (animator.js:85,113). -/
def sequencedKeyframes (read : String → String) (cfg : AnimConfig) : List Keyframe :=
  if cfg.loops > 0 then cfg.keyframes ++ [buildExtraFrame read cfg] else cfg.keyframes

/-- `Animator.animate` (animator.js:81-118) up to the first tick request: the
two synchronous configuration checks, then the sequencing, `AnimationBegin`,
and entry into frame 0. -/
def startAnim (env : ElementEnv) (cfg : AnimConfig) : Except AnimErr AnimState :=
  if cfg.hasElement = false then .error .noElement
  else if cfg.keyframes.isEmpty then .error .noKeyframes
  else
    .ok (enterFrame env
      { keyframes := sequencedKeyframes env.read cfg, loops := cfg.loops,
        frameIndex := 0, events := [.animationBegin], status := .running } 0)

/-- Iterated frame completion. -/
def runSteps (env : ElementEnv) : Nat → AnimState → AnimState
  | 0, s => s
  | n + 1, s => runSteps env n (completeFrame env s)

/-! ## Test fixtures: a concrete element whose every style reads as 0px -/

/-- A concrete raw style read for the playback runs. -/
def testRead : String → String := fun _ => "0px"

/-- A concrete element environment. -/
def testEnv : ElementEnv := { read := testRead, offsetWidth := 100, offsetHeight := 100 }

/-- The configuration of spec section 8's looping scenario: `loops = 2` and
three keyframes. -/
def loops2Cfg : AnimConfig :=
  { hasElement := true, loops := 2,
    keyframes := [[("left", JsVal.num 100)], [("left", JsVal.num 200)],
                  [("left", JsVal.num 300)]],
    timing := "linear", duration := 500 }

/-- A loops-2 configuration with a single keyframe, used to observe the loop
counter at completion. -/
def loops2OneCfg : AnimConfig :=
  { hasElement := true, loops := 2, keyframes := [[("left", JsVal.num 100)]],
    timing := "linear", duration := 500 }

/-- The state produced by a successful `animate()` call (undefined garbage
state on a configuration error). -/
def startedState (env : ElementEnv) (cfg : AnimConfig) : AnimState :=
  match startAnim env cfg with
  | .ok s => s
  | .error e => { keyframes := [], loops := 0, frameIndex := 0, events := [], status := .failed e }

/-! ## Claim theorems about configuration checks (C7) -/

/-- C7: when the target element is unset, or the keyframe list is empty,
`animate()` raises the corresponding configuration error synchronously — the
model returns the error before any playback state exists, so no tick is
scheduled, no lifecycle event has fired and the keyframe list is not yet
extended; and exactly the configurations with a target and a non-empty
keyframe list start playback instead of raising a configuration error. -/
theorem configurationError_iff (env : ElementEnv) (cfg : AnimConfig) :
    ((∃ e, startAnim env cfg = .error e) ↔
      (cfg.hasElement = false ∨ cfg.keyframes = [])) ∧
    (startAnim env cfg = .error .noElement ↔ cfg.hasElement = false) ∧
    (startAnim env cfg = .error .noKeyframes ↔
      (cfg.hasElement = true ∧ cfg.keyframes = [])) := by
  obtain ⟨el, lp, kfs, tm, du⟩ := cfg
  cases el <;> cases kfs <;>
    simp [startAnim]

/-! ## Claim theorems about loop-counter reset at completion (C2) -/

/-- C2 counterexample: a caller-configured `loops = 2` animation with one
keyframe (so two sequenced frames) completes after four frame completions;
at the transition to the completed state the loop counter holds 0 — the
class-definition default assigned by the generated `resetLoops()` — and not
the caller-supplied configured value 2. -/
theorem resetLoops_configured_value_cex :
    startAnim testEnv loops2OneCfg = .ok (startedState testEnv loops2OneCfg) ∧
    (runSteps testEnv 4 (startedState testEnv loops2OneCfg)).status = .done ∧
    (runSteps testEnv 4 (startedState testEnv loops2OneCfg)).events.getLast?
      = some .animationEnd ∧
    loops2OneCfg.loops = 2 ∧
    (runSteps testEnv 4 (startedState testEnv loops2OneCfg)).loops = 0 ∧
    (0 : Int) ≠ 2 := by
  refine ⟨rfl, by decide, by decide, by decide, by decide, by decide⟩

/-- C2 amended: when the last keyframe of the last remaining loop pass
completes, the controller assigns the loop counter the class-definition
default value of `loops` (0, via the generated `resetLoops()` accessor, which
closes over the class definition object — not the caller-configured value),
and then fires `AnimationEnd`; the reset is applied in the same transition,
before the event is appended. -/
theorem completed_resets_loops_to_definition_default (env : ElementEnv)
    (s : AnimState) (hrun : s.status = .running)
    (hlast : ¬ s.frameIndex < s.keyframes.length - 1)
    (hloops : ¬ s.loops - 1 > 0) :
    (completeFrame env s).status = .done ∧
    (completeFrame env s).loops = animatorDefinitionLoops ∧
    (completeFrame env s).events =
      s.events ++ [.keyframeEnd s.frameIndex, .animationEnd] := by
  obtain ⟨kf, lp, fi, ev, st⟩ := s
  simp only at hrun hlast hloops
  subst hrun
  simp [completeFrame, hlast, hloops, resetLoops]

/-- C2 amended, witness at a concrete one-frame state on its final pass. -/
theorem completed_resets_loops_witness :
    ((AnimStatus.running = AnimStatus.running) ∧
     ¬ (0 : Nat) < [[("left", JsVal.num 100)]].length - 1 ∧
     ¬ (1 : Int) - 1 > 0) ∧
    ((completeFrame testEnv
        { keyframes := [[("left", JsVal.num 100)]], loops := 1, frameIndex := 0,
          events := [], status := .running }).status = .done ∧
     (completeFrame testEnv
        { keyframes := [[("left", JsVal.num 100)]], loops := 1, frameIndex := 0,
          events := [], status := .running }).loops = animatorDefinitionLoops ∧
     (completeFrame testEnv
        { keyframes := [[("left", JsVal.num 100)]], loops := 1, frameIndex := 0,
          events := [], status := .running }).events =
        [] ++ [.keyframeEnd 0, .animationEnd]) :=
  ⟨⟨rfl, by decide, by decide⟩,
   completed_resets_loops_to_definition_default testEnv
     { keyframes := [[("left", JsVal.num 100)]], loops := 1, frameIndex := 0,
       events := [], status := .running } rfl (by decide) (by decide)⟩

/-! ## Claim theorems about the loops-2, 3-keyframe run (C4) -/

/-- C4: with `loops = 2` and three keyframes, the sequenced list has 3+1
frames; playback emits begin/end for frames 0-3, then replays frames 0-3 once
more, then ends.  The loop counter stays at 2 throughout the first pass,
drops to 1 exactly when the synthetic frame 3 completes the first pass,
stays at 1 through the second pass, and the run completes after the second
pass (the final 0 is the post-reset value). -/
theorem loops2_three_keyframes_run :
    startAnim testEnv loops2Cfg = .ok (startedState testEnv loops2Cfg) ∧
    (startedState testEnv loops2Cfg).keyframes.length = 4 ∧
    (startedState testEnv loops2Cfg).loops = 2 ∧
    (runSteps testEnv 1 (startedState testEnv loops2Cfg)).loops = 2 ∧
    (runSteps testEnv 2 (startedState testEnv loops2Cfg)).loops = 2 ∧
    (runSteps testEnv 3 (startedState testEnv loops2Cfg)).loops = 2 ∧
    (runSteps testEnv 4 (startedState testEnv loops2Cfg)).loops = 1 ∧
    (runSteps testEnv 4 (startedState testEnv loops2Cfg)).status = .running ∧
    (runSteps testEnv 4 (startedState testEnv loops2Cfg)).frameIndex = 0 ∧
    (runSteps testEnv 5 (startedState testEnv loops2Cfg)).loops = 1 ∧
    (runSteps testEnv 6 (startedState testEnv loops2Cfg)).loops = 1 ∧
    (runSteps testEnv 7 (startedState testEnv loops2Cfg)).loops = 1 ∧
    (runSteps testEnv 7 (startedState testEnv loops2Cfg)).status = .running ∧
    (runSteps testEnv 8 (startedState testEnv loops2Cfg)).status = .done ∧
    (runSteps testEnv 8 (startedState testEnv loops2Cfg)).events =
      [.animationBegin,
       .keyframeBegin 0, .keyframeEnd 0, .keyframeBegin 1, .keyframeEnd 1,
       .keyframeBegin 2, .keyframeEnd 2, .keyframeBegin 3, .keyframeEnd 3,
       .keyframeBegin 0, .keyframeEnd 0, .keyframeBegin 1, .keyframeEnd 1,
       .keyframeBegin 2, .keyframeEnd 2, .keyframeBegin 3, .keyframeEnd 3,
       .animationEnd] := by
  refine ⟨rfl, by decide, by decide, by decide, by decide, by decide, by decide,
    by decide, by decide, by decide, by decide, by decide, by decide, by decide,
    by decide⟩

/-! ## Claim theorems about color delta alpha presence (C10) -/

lemma emitColor_never_rgb_of_alpha (ft : JsVal) (dt : String) (p : ℝ)
    (d : ColorDRec) (h : d.a.isSome = true) :
    neverPlainRgb (emitColor ft dt p d) := by
  obtain ⟨arec, ha⟩ := Option.isSome_iff_exists.mp h
  unfold emitColor
  rw [ha]
  cases timingFunction ft dt p (d.r.initial : ℝ) (d.r.delta : ℝ) with
  | none => simp [neverPlainRgb]
  | some r =>
    cases timingFunction ft dt p (d.g.initial : ℝ) (d.g.delta : ℝ) with
    | none => simp [neverPlainRgb]
    | some g =>
      cases timingFunction ft dt p (d.b.initial : ℝ) (d.b.delta : ℝ) with
      | none => simp [neverPlainRgb]
      | some b =>
        rcases htf : timingFunction (.str "linear") dt p (arec.initial : ℝ)
            (arec.delta : ℝ) with _ | av <;>
          simp [htf, neverPlainRgb]

/-- C10: for every pair of parsed colors of a compiled color property, the
alpha presence test always passes — its second disjunct strictly compares the
source alpha slot (a number or `undefined`) with the string literal
`'undefined'` and is therefore always true — so the compiled record always
carries an alpha `DeltaRecord` with each missing side defaulted to 1, and
consequently the playback write for a color channel is never rendered through
the plain `rgb()` branch. -/
theorem colorDelta_always_has_alpha (source target : String) (ft : JsVal)
    (dt : String) (p : ℝ) :
    jsStrictEq (toJsValOptInt (getRGB source).a) (.str "undefined") = false ∧
    (compileColor (getRGB source) (getRGB target)).a =
      some { delta := (((getRGB target).a.getD 1 : Int) : ℚ) -
                        (((getRGB source).a.getD 1 : Int) : ℚ),
             initial := (((getRGB source).a.getD 1 : Int) : ℚ) } ∧
    neverPlainRgb (emitColor ft dt p (compileColor (getRGB source) (getRGB target))) := by
  have hneq : jsStrictEq (toJsValOptInt (getRGB source).a) (.str "undefined") = false := by
    cases (getRGB source).a <;> rfl
  have halpha : (compileColor (getRGB source) (getRGB target)).a =
      some { delta := (((getRGB target).a.getD 1 : Int) : ℚ) -
                        (((getRGB source).a.getD 1 : Int) : ℚ),
             initial := (((getRGB source).a.getD 1 : Int) : ℚ) } := by
    unfold compileColor
    rw [hneq]
    simp
  exact ⟨hneq, halpha, emitColor_never_rgb_of_alpha ft dt p _ (by rw [halpha]; rfl)⟩

/-! ## Tick model: per-frame progress (animator.js:206-218) -/

/-- The per-tick progress value
`1 - ((startTime + duration - now) / duration)`, clamped above at 1
(animator.js:214-215); wall-clock instants are idealised as rationals. -/
def progressAt (startTime duration now : ℚ) : ℚ :=
  let p := 1 - ((startTime + duration - now) / duration)
  if p > 1 then 1 else p

/-- The `lastProgress` register and the list of progress values actually used
for style writes within one frame, in tick order. -/
structure TickState where
  lastProgress : Option ℚ
  writes : List ℚ
  deriving DecidableEq, Repr

/-- One tick callback (animator.js:211-218): compute the clamped progress; a
tick whose progress equals `lastProgress` returns without writing, otherwise
the progress is recorded and written. -/
def tickStep (startTime duration : ℚ) (st : TickState) (now : ℚ) : TickState :=
  let p := progressAt startTime duration now
  if st.lastProgress = some p then st
  else { lastProgress := some p, writes := st.writes ++ [p] }

/-- The tick loop of one frame over the wall-clock instants of its ticks;
`startTime` is recorded at frame entry and `lastProgress` begins unset. -/
def runTicks (startTime duration : ℚ) (nows : List ℚ) : TickState :=
  nows.foldl (tickStep startTime duration) { lastProgress := none, writes := [] }

lemma progressAt_eq_min (s d n : ℚ) (hd : d ≠ 0) :
    progressAt s d n = min 1 ((n - s) / d) := by
  have h : 1 - ((s + d - n) / d) = (n - s) / d := by
    field_simp
    ring
  simp only [progressAt, h]
  split_ifs with h₁
  · exact (min_eq_left (le_of_lt h₁)).symm
  · push_neg at h₁
    exact (min_eq_right h₁).symm

lemma progressAt_le_one (s d n : ℚ) : progressAt s d n ≤ 1 := by
  simp only [progressAt]
  split_ifs with h₁
  · exact le_refl 1
  · push_neg at h₁
    exact h₁

lemma progressAt_nonneg (s d n : ℚ) (hd : 0 < d) (hn : s ≤ n) :
    0 ≤ progressAt s d n := by
  rw [progressAt_eq_min s d n (ne_of_gt hd)]
  exact le_min (by norm_num) (div_nonneg (by linarith) hd.le)

lemma progressAt_mono (s d : ℚ) (hd : 0 < d) {n₁ n₂ : ℚ} (h : n₁ ≤ n₂) :
    progressAt s d n₁ ≤ progressAt s d n₂ := by
  rw [progressAt_eq_min s d n₁ (ne_of_gt hd), progressAt_eq_min s d n₂ (ne_of_gt hd)]
  exact min_le_min le_rfl ((div_le_div_iff_of_pos_right hd).mpr (by linarith))

lemma progressAt_start (s d : ℚ) (hd : d ≠ 0) : progressAt s d s = 0 := by
  have h : 1 - ((s + d - s) / d) = 0 := by
    field_simp
  simp only [progressAt, h]
  norm_num

/-- Invariant of the tick loop: the written progress values are strictly
increasing and clamped to the unit interval, and `lastProgress`, when set, is
the progress of the latest processed instant and dominates every write. -/
def tickInv (s d : ℚ) (st : TickState) (bound : ℚ) : Prop :=
  List.Chain' (· < ·) st.writes ∧
  (∀ p ∈ st.writes, 0 ≤ p ∧ p ≤ 1) ∧
  ((st.lastProgress = none ∧ st.writes = []) ∨
   (st.lastProgress = some (progressAt s d bound) ∧
    ∀ p ∈ st.writes, p ≤ progressAt s d bound))

lemma tickFold (s d : ℚ) (hd : 0 < d) :
    ∀ (nows : List ℚ) (st : TickState) (bound : ℚ),
      tickInv s d st bound →
      List.Chain' (· ≤ ·) (bound :: nows) →
      (∀ t ∈ nows, s ≤ t) →
      ∃ bound₂, tickInv s d (nows.foldl (tickStep s d) st) bound₂ := by
  intro nows
  induction nows with
  | nil =>
    intro st bound hinv _ _
    exact ⟨bound, hinv⟩
  | cons t rest ih =>
    intro st bound hinv hchain hmem
    have hbt : bound ≤ t := (List.chain'_cons.mp hchain).1
    have hchain' : List.Chain' (· ≤ ·) (t :: rest) := (List.chain'_cons.mp hchain).2
    have hst : s ≤ t := hmem t (by simp)
    have hmem' : ∀ u ∈ rest, s ≤ u := fun u hu => hmem u (by simp [hu])
    obtain ⟨hchainW, hbounds, hlast⟩ := hinv
    simp only [List.foldl_cons]
    by_cases heq : st.lastProgress = some (progressAt s d t)
    · have hstep : tickStep s d st t = st := by
        simp [tickStep, heq]
      rw [hstep]
      refine ih st t ⟨hchainW, hbounds, ?_⟩ hchain' hmem'
      rcases hlast with ⟨hnone, _⟩ | ⟨hsome, hle⟩
      · rw [hnone] at heq
        exact absurd heq (by simp)
      · refine Or.inr ⟨heq, ?_⟩
        intro w hw
        have h₁ := hle w hw
        rw [hsome] at heq
        have h₂ : progressAt s d bound = progressAt s d t := by
          exact Option.some.inj heq
        rw [h₂] at h₁
        exact h₁
    · have hstep : tickStep s d st t =
          { lastProgress := some (progressAt s d t),
            writes := st.writes ++ [progressAt s d t] } := by
        simp [tickStep, heq]
      rw [hstep]
      have hlt : ∀ w ∈ st.writes, w < progressAt s d t := by
        intro w hw
        rcases hlast with ⟨_, hnil⟩ | ⟨hsome, hle⟩
        · rw [hnil] at hw
          exact absurd hw (by simp)
        · have h₁ : w ≤ progressAt s d bound := hle w hw
          have h₂ : progressAt s d bound ≤ progressAt s d t :=
            progressAt_mono s d hd hbt
          have h₃ : progressAt s d bound ≠ progressAt s d t := by
            intro hcontra
            rw [hsome, hcontra] at heq
            exact heq rfl
          exact lt_of_le_of_lt h₁ (lt_of_le_of_ne h₂ h₃)
      refine ih _ t ⟨?_, ?_, ?_⟩ hchain' hmem'
      · rw [List.chain'_append]
        refine ⟨hchainW, List.chain'_singleton _, ?_⟩
        intro x hx y hy
        simp only [List.head?_cons, Option.mem_def, Option.some.injEq] at hy
        subst hy
        exact hlt x (List.mem_of_mem_getLast? hx)
      · intro w hw
        rcases List.mem_append.mp hw with h | h
        · exact hbounds w h
        · simp only [List.mem_singleton] at h
          subst h
          exact ⟨progressAt_nonneg s d t hd hst, progressAt_le_one s d t⟩
      · refine Or.inr ⟨rfl, ?_⟩
        intro w hw
        rcases List.mem_append.mp hw with h | h
        · exact (hlt w h).le
        · simp only [List.mem_singleton] at h
          subst h
          exact le_refl _

/-- C9: within one frame, under a non-decreasing wall clock whose instants do
not precede the frame's start time and a positive duration, every progress
value used for a style write lies in the unit interval (clamped at 1), the
written progress values are strictly increasing (a tick repeating the last
progress performs no write), and the progress of the tick formula at the
frame's own start instant is 0 — progress restarts at 0 when a new frame
begins, each frame recording a fresh `startTime` and an unset
`lastProgress`. -/
theorem progress_monotone_within_frame (startTime duration : ℚ) (nows : List ℚ)
    (hdur : 0 < duration)
    (hchain : List.Chain' (· ≤ ·) nows)
    (hstart : ∀ t ∈ nows, startTime ≤ t) :
    List.Chain' (· < ·) (runTicks startTime duration nows).writes ∧
    (∀ p ∈ (runTicks startTime duration nows).writes, 0 ≤ p ∧ p ≤ 1) ∧
    progressAt startTime duration startTime = 0 := by
  have h₀ : tickInv startTime duration { lastProgress := none, writes := [] } startTime :=
    ⟨List.chain'_nil, by simp, Or.inl ⟨rfl, rfl⟩⟩
  have hch : List.Chain' (· ≤ ·) (startTime :: nows) := by
    cases nows with
    | nil => simp
    | cons t ts => exact List.chain'_cons.mpr ⟨hstart t (by simp), hchain⟩
  obtain ⟨b₂, hinv⟩ :=
    tickFold startTime duration hdur nows _ startTime h₀ hch hstart
  exact ⟨hinv.1, hinv.2.1, progressAt_start _ _ (ne_of_gt hdur)⟩

/-- C9 witness: start time 0, duration 2, clock instants 1, 1, 2, 3. -/
theorem progress_monotone_witness :
    ((0 : ℚ) < 2 ∧ List.Chain' (· ≤ ·) [(1 : ℚ), 1, 2, 3] ∧
      ∀ t ∈ [(1 : ℚ), 1, 2, 3], (0 : ℚ) ≤ t) ∧
    (List.Chain' (· < ·) (runTicks 0 2 [(1 : ℚ), 1, 2, 3]).writes ∧
     (∀ p ∈ (runTicks 0 2 [(1 : ℚ), 1, 2, 3]).writes, 0 ≤ p ∧ p ≤ 1) ∧
     progressAt 0 2 0 = 0) :=
  ⟨⟨by norm_num, by simp [List.chain'_cons]; norm_num,
    by intro t ht; simp at ht; rcases ht with rfl | rfl | rfl | rfl <;> norm_num⟩,
   progress_monotone_within_frame 0 2 [(1 : ℚ), 1, 2, 3] (by norm_num)
     (by simp [List.chain'_cons]; norm_num)
     (by intro t ht; simp at ht; rcases ht with rfl | rfl | rfl | rfl <;> norm_num)⟩

/-! ## Claim theorems about whitelist validation timing (C6) -/

/-- A string-valued keyframe slot. -/
def isStrVal : JsVal → Bool
  | .str _ => true
  | _ => false

/-- A keyframe entry the compiler processes without throwing: a config
property, or a whitelisted property whose value, for a color property, is a
string. -/
def okProp (p : String × JsVal) : Prop :=
  p.1 ∈ KEYFRAME_CONFIG_PROPERTIES ∨
  (p.1 ∈ KEYFRAME_ANIMATION_PROPERTIES ∧
    (endsWithColor p.1 = true → isStrVal p.2 = true))

instance (p : String × JsVal) : Decidable (okProp p) := by
  unfold okProp; infer_instance

/-- A keyframe whose compilation succeeds. -/
def compilableFrame (f : Keyframe) : Prop := ∀ p ∈ f, okProp p

instance (f : Keyframe) : Decidable (compilableFrame f) := by
  unfold compilableFrame
  exact List.decidableBAll _ f

lemma compileProp_ok (env : ElementEnv) (ds : Deltas) (name : String) (v : JsVal)
    (hw : name ∈ KEYFRAME_ANIMATION_PROPERTIES)
    (hc : endsWithColor name = true → isStrVal v = true) :
    ∃ ds₂, compileProp env ds name v = .ok ds₂ := by
  unfold compileProp
  rw [if_neg (not_not_intro hw)]
  by_cases hwh : name = "width" || name = "height"
  · rw [if_pos hwh]
    exact ⟨_, rfl⟩
  · rw [if_neg hwh]
    by_cases hcol : endsWithColor name = false
    · rw [if_pos hcol]
      exact ⟨_, rfl⟩
    · rw [if_neg hcol]
      have hstr : isStrVal v = true := by
        apply hc
        revert hcol
        cases endsWithColor name <;> simp
      cases v with
      | str s => exact ⟨_, rfl⟩
      | undef => simp [isStrVal] at hstr
      | num n => simp [isStrVal] at hstr

lemma foldl_compileStep_error (env : ElementEnv) (f : List (String × JsVal))
    (e : AnimErr) : f.foldl (compileStep env) (.error e) = .error e := by
  induction f with
  | nil => rfl
  | cons p f ih =>
    rw [List.foldl_cons]
    exact ih

lemma foldl_compileStep_ok (env : ElementEnv) :
    ∀ (f : List (String × JsVal)) (ds₀ : Deltas), (∀ p ∈ f, okProp p) →
      ∃ ds, f.foldl (compileStep env) (.ok ds₀) = .ok ds := by
  intro f
  induction f with
  | nil =>
    intro ds₀ _
    exact ⟨ds₀, rfl⟩
  | cons p f ih =>
    intro ds₀ hall
    rw [List.foldl_cons]
    by_cases hcfg : p.1 ∈ KEYFRAME_CONFIG_PROPERTIES
    · have hstep : compileStep env (.ok ds₀) p = .ok ds₀ := by
        simp [compileStep, hcfg]
      rw [hstep]
      exact ih ds₀ (fun q hq => hall q (by simp [hq]))
    · rcases hall p (by simp) with h | ⟨hw, hc⟩
      · exact absurd h hcfg
      obtain ⟨ds₂, hds₂⟩ := compileProp_ok env ds₀ p.1 p.2 hw hc
      have hstep : compileStep env (.ok ds₀) p = .ok ds₂ := by
        simp [compileStep, hcfg, hds₂]
      rw [hstep]
      exact ih ds₂ (fun q hq => hall q (by simp [hq]))

lemma compileFrame_ok (env : ElementEnv) (f : Keyframe) (h : compilableFrame f) :
    ∃ ds, compileFrame env f = .ok ds :=
  foldl_compileStep_ok env f [] h

lemma compileFrame_first_bad (env : ElementEnv) (pre rest : List (String × JsVal))
    (bad : String) (v : JsVal) (hpre : ∀ p ∈ pre, okProp p)
    (hbadc : bad ∉ KEYFRAME_CONFIG_PROPERTIES)
    (hbadw : bad ∉ KEYFRAME_ANIMATION_PROPERTIES) :
    compileFrame env (pre ++ (bad, v) :: rest) = .error (.notAnimatable bad) := by
  unfold compileFrame
  rw [List.foldl_append]
  obtain ⟨ds, hds⟩ := foldl_compileStep_ok env pre [] hpre
  rw [hds, List.foldl_cons]
  have hstep : compileStep env (.ok ds) (bad, v) = .error (.notAnimatable bad) := by
    simp [compileStep, hbadc, compileProp, hbadw]
  rw [hstep]
  exact foldl_compileStep_error env rest _

lemma enterFrame_ok (env : ElementEnv) (s : AnimState) (i : Nat) (f : Keyframe)
    (hget : s.keyframes.get? i = some f) (hc : compilableFrame f) :
    enterFrame env s i =
      { s with frameIndex := i, events := s.events ++ [.keyframeBegin i] } := by
  unfold enterFrame
  rw [hget]
  obtain ⟨ds, hds⟩ := compileFrame_ok env f hc
  simp only [hds]

lemma enterFrame_bad (env : ElementEnv) (s : AnimState) (i : Nat)
    (pre rest : List (String × JsVal)) (bad : String) (v : JsVal)
    (hget : s.keyframes.get? i = some (pre ++ (bad, v) :: rest))
    (hpre : ∀ p ∈ pre, okProp p)
    (hbadc : bad ∉ KEYFRAME_CONFIG_PROPERTIES)
    (hbadw : bad ∉ KEYFRAME_ANIMATION_PROPERTIES) :
    enterFrame env s i =
      { s with frameIndex := i, status := .failed (.notAnimatable bad) } := by
  unfold enterFrame
  rw [hget]
  simp only [compileFrame_first_bad env pre rest bad v hpre hbadc hbadw]

/-- The events emitted by `m` frame completions that each advance to the next
frame, starting while frame `k` is active. -/
def passEvents : Nat → Nat → List AnimEvent
  | _, 0 => []
  | k, m + 1 => .keyframeEnd k :: .keyframeBegin (k + 1) :: passEvents (k + 1) m

/-- The begin/end event pairs of `m` fully played frames starting at `k`. -/
def beginEndEvents : Nat → Nat → List AnimEvent
  | _, 0 => []
  | k, m + 1 => .keyframeBegin k :: .keyframeEnd k :: beginEndEvents (k + 1) m

lemma passEvents_shift (m : Nat) : ∀ (k : Nat),
    AnimEvent.keyframeBegin k :: (passEvents k m ++ [.keyframeEnd (k + m)]) =
      beginEndEvents k (m + 1) := by
  induction m with
  | zero =>
    intro k
    simp [passEvents, beginEndEvents]
  | succ m ih =>
    intro k
    rw [passEvents, beginEndEvents]
    simp only [List.cons_append]
    rw [show k + (m + 1) = k + 1 + m from by omega, ← ih (k + 1)]

lemma runSteps_succ_last (env : ElementEnv) : ∀ (n : Nat) (s : AnimState),
    runSteps env (n + 1) s = completeFrame env (runSteps env n s) := by
  intro n
  induction n with
  | zero => intro s; rfl
  | succ n ih =>
    intro s
    have h₁ : runSteps env (n + 1 + 1) s = runSteps env (n + 1) (completeFrame env s) := rfl
    rw [h₁, ih]
    rfl

lemma completeFrame_running_mid (env : ElementEnv) (s : AnimState)
    (hst : s.status = .running) (hlt : s.frameIndex < s.keyframes.length - 1) :
    completeFrame env s = enterFrame env
      { s with events := s.events ++ [.keyframeEnd s.frameIndex] }
      (s.frameIndex + 1) := by
  obtain ⟨kf, lp, fi, ev, st⟩ := s
  simp only at hst hlt
  subst hst
  simp [completeFrame, hlt]

lemma runSteps_advance (env : ElementEnv) :
    ∀ (m : Nat) (s : AnimState),
      s.status = .running →
      s.frameIndex + m < s.keyframes.length →
      (∀ t, 1 ≤ t → t ≤ m → ∀ f, s.keyframes.get? (s.frameIndex + t) = some f →
        compilableFrame f) →
      runSteps env m s = { s with frameIndex := s.frameIndex + m,
                                  events := s.events ++ passEvents s.frameIndex m } := by
  intro m
  induction m with
  | zero =>
    intro s hst _ _
    obtain ⟨kf, lp, fi, ev, st⟩ := s
    simp [runSteps, passEvents]
  | succ m ih =>
    intro s hst hlen hcomp
    have hfi : s.frameIndex < s.keyframes.length - 1 := by omega
    have hget : s.keyframes.get? (s.frameIndex + 1) =
        some (s.keyframes.get ⟨s.frameIndex + 1, by omega⟩) :=
      List.get?_eq_get (by omega)
    have hcf : compilableFrame (s.keyframes.get ⟨s.frameIndex + 1, by omega⟩) :=
      hcomp 1 (by omega) (by omega) _ hget
    have hstep : completeFrame env s =
        { s with frameIndex := s.frameIndex + 1,
                 events := s.events ++
                   [.keyframeEnd s.frameIndex, .keyframeBegin (s.frameIndex + 1)] } := by
      rw [completeFrame_running_mid env s hst hfi]
      rw [enterFrame_ok env
        { s with events := s.events ++ [.keyframeEnd s.frameIndex] }
        (s.frameIndex + 1) _ hget hcf]
      simp
    have hcomp' : ∀ t, 1 ≤ t → t ≤ m → ∀ f,
        s.keyframes.get? (s.frameIndex + 1 + t) = some f → compilableFrame f := by
      intro t h₁ h₂ f hf
      refine hcomp (t + 1) (by omega) (by omega) f ?_
      rw [show s.frameIndex + (t + 1) = s.frameIndex + 1 + t from by omega]
      exact hf
    have hrw : runSteps env (m + 1) s = runSteps env m (completeFrame env s) := rfl
    rw [hrw, hstep, ih _ (by simp [hst]) (by simp; omega) hcomp']
    simp only [List.append_assoc]
    congr 1
    omega

lemma runSteps_fail (env : ElementEnv) (pre rest : List (String × JsVal))
    (bad : String) (v : JsVal) (hpre : ∀ p ∈ pre, okProp p)
    (hbadc : bad ∉ KEYFRAME_CONFIG_PROPERTIES)
    (hbadw : bad ∉ KEYFRAME_ANIMATION_PROPERTIES) :
    ∀ (j : Nat) (s : AnimState),
      s.status = .running →
      s.frameIndex + j + 1 < s.keyframes.length →
      (∀ t, 1 ≤ t → t ≤ j → ∀ f, s.keyframes.get? (s.frameIndex + t) = some f →
        compilableFrame f) →
      s.keyframes.get? (s.frameIndex + j + 1) = some (pre ++ (bad, v) :: rest) →
      runSteps env (j + 1) s =
        { s with frameIndex := s.frameIndex + j + 1,
                 events := (s.events ++ passEvents s.frameIndex j) ++
                   [.keyframeEnd (s.frameIndex + j)],
                 status := .failed (.notAnimatable bad) } := by
  intro j
  induction j with
  | zero =>
    intro s hst hlen _ hbad
    have hfi : s.frameIndex < s.keyframes.length - 1 := by omega
    have hrw : runSteps env 1 s = completeFrame env s := rfl
    rw [hrw, completeFrame_running_mid env s hst hfi]
    rw [enterFrame_bad env
      { s with events := s.events ++ [.keyframeEnd s.frameIndex] }
      (s.frameIndex + 1) pre rest bad v (by simpa using hbad) hpre hbadc hbadw]
    simp [passEvents]
  | succ j ih =>
    intro s hst hlen hcomp hbad
    have hfi : s.frameIndex < s.keyframes.length - 1 := by omega
    have hget : s.keyframes.get? (s.frameIndex + 1) =
        some (s.keyframes.get ⟨s.frameIndex + 1, by omega⟩) :=
      List.get?_eq_get (by omega)
    have hcf : compilableFrame (s.keyframes.get ⟨s.frameIndex + 1, by omega⟩) :=
      hcomp 1 (by omega) (by omega) _ hget
    have hstep : completeFrame env s =
        { s with frameIndex := s.frameIndex + 1,
                 events := s.events ++
                   [.keyframeEnd s.frameIndex, .keyframeBegin (s.frameIndex + 1)] } := by
      rw [completeFrame_running_mid env s hst hfi]
      rw [enterFrame_ok env
        { s with events := s.events ++ [.keyframeEnd s.frameIndex] }
        (s.frameIndex + 1) _ hget hcf]
      simp
    have hcomp' : ∀ t, 1 ≤ t → t ≤ j → ∀ f,
        s.keyframes.get? (s.frameIndex + 1 + t) = some f → compilableFrame f := by
      intro t h₁ h₂ f hf
      refine hcomp (t + 1) (by omega) (by omega) f ?_
      rw [show s.frameIndex + (t + 1) = s.frameIndex + 1 + t from by omega]
      exact hf
    have hbad' : s.keyframes.get? (s.frameIndex + 1 + j + 1) =
        some (pre ++ (bad, v) :: rest) := by
      rw [show s.frameIndex + 1 + j + 1 = s.frameIndex + (j + 1) + 1 from by omega]
      exact hbad
    have hrw : runSteps env (j + 1 + 1) s = runSteps env (j + 1) (completeFrame env s) := rfl
    rw [hrw, hstep,
      ih _ (by simp [hst]) (by simp; omega) hcomp' (by simpa using hbad')]
    simp only [List.append_assoc]
    congr 2
    · omega
    · simp only [passEvents, List.cons_append, List.nil_append]
      rw [show s.frameIndex + 1 + j = s.frameIndex + (j + 1) from by omega]

/-- C6: when the sequenced frame list is valid before frame `j` and frame `j`
contains a non-whitelisted property (at the first entry of that frame that
the compilation loop does not accept), playback starts normally, frames `0`
to `j - 1` play to completion — their begin/end events all fire first — and
the run aborts with `PropertyNotAnimatable` exactly when frame `j` is entered
for compilation: the error names the property and the whitelist,
`KeyframeBegin j` never fires, and no check of any later frame happens before
that point. -/
theorem propertyNotAnimatable_at_frame_entry (env : ElementEnv) (cfg : AnimConfig)
    (hel : cfg.hasElement = true) (hne : cfg.keyframes ≠ [])
    (j : Nat) (pre rest : List (String × JsVal)) (bad : String) (v : JsVal)
    (hj : (sequencedKeyframes env.read cfg).get? j = some (pre ++ (bad, v) :: rest))
    (hpre : ∀ p ∈ pre, okProp p)
    (hbadc : bad ∉ KEYFRAME_CONFIG_PROPERTIES)
    (hbadw : bad ∉ KEYFRAME_ANIMATION_PROPERTIES)
    (hvalid : ∀ f ∈ (sequencedKeyframes env.read cfg).take j, compilableFrame f) :
    ∃ s₀, startAnim env cfg = .ok s₀ ∧
      (runSteps env j s₀).status = .failed (.notAnimatable bad) ∧
      (runSteps env j s₀).events = .animationBegin :: beginEndEvents 0 j ∧
      errMsg (.notAnimatable bad) =
        "Property " ++ bad ++ " could not be animated. Animateable properties: " ++
          String.intercalate ", " KEYFRAME_ANIMATION_PROPERTIES := by
  have hvalid' : ∀ i, i < j → ∀ f,
      (sequencedKeyframes env.read cfg).get? i = some f → compilableFrame f := by
    intro i hi f hf
    refine hvalid f (List.get?_mem (n := i) ?_)
    rw [List.get?_take hi]
    exact hf
  have hjlen : j < (sequencedKeyframes env.read cfg).length := by
    by_contra hcon
    rw [List.get?_eq_none.mpr (by omega)] at hj
    exact absurd hj (by simp)
  set F := sequencedKeyframes env.read cfg with hF
  set init : AnimState :=
    { keyframes := F, loops := cfg.loops, frameIndex := 0,
      events := [.animationBegin], status := .running } with hinit
  have hstart : startAnim env cfg = .ok (enterFrame env init 0) := by
    unfold startAnim
    rw [if_neg (by simp [hel]), if_neg (by simp [hne])]
  refine ⟨enterFrame env init 0, hstart, ?_⟩
  cases j with
  | zero =>
    rw [enterFrame_bad env init 0 pre rest bad v hj hpre hbadc hbadw]
    exact ⟨rfl, rfl, rfl⟩
  | succ m =>
    have hkf : init.keyframes = F := by rw [hinit]
    have h0get : init.keyframes.get? 0 = some (F.get ⟨0, by omega⟩) := by
      rw [hkf]
      exact List.get?_eq_get (by omega)
    have h0 : compilableFrame (F.get ⟨0, by omega⟩) :=
      hvalid' 0 (by omega) _ (List.get?_eq_get (by omega))
    rw [enterFrame_ok env init 0 _ h0get h0]
    have hfail := runSteps_fail env pre rest bad v hpre hbadc hbadw m
      { init with frameIndex := 0, events := init.events ++ [.keyframeBegin 0] }
      (by simp [hinit]) (by simp [hinit]; omega)
      (by
        intro t h₁ h₂ f hf
        refine hvalid' t (by omega) f ?_
        simpa [hinit] using hf)
      (by simpa [hinit] using hj)
    rw [hfail]
    refine ⟨rfl, ?_, rfl⟩
    simp only [hinit]
    simp only [List.nil_append, List.cons_append, List.append_assoc]
    rw [show (0 : Nat) + m = m from by omega]
    have hshift := passEvents_shift m 0
    simp only [List.cons_append] at hshift ⊢
    rw [← hshift]
    simp

/-- A configuration whose second keyframe contains the unknown property
fooBar (the scenario of spec section 8). -/
def badCfg : AnimConfig :=
  { hasElement := true, loops := 0,
    keyframes := [[("left", JsVal.num 100)], [("fooBar", JsVal.num 1)]],
    timing := "linear", duration := 500 }

/-- C6 witness: a valid first keyframe and a second keyframe carrying
fooBar. -/
theorem propertyNotAnimatable_witness :
    (badCfg.hasElement = true ∧ badCfg.keyframes ≠ [] ∧
     (sequencedKeyframes testEnv.read badCfg).get? 1 =
       some ([] ++ ("fooBar", JsVal.num 1) :: []) ∧
     (∀ p ∈ ([] : List (String × JsVal)), okProp p) ∧
     "fooBar" ∉ KEYFRAME_CONFIG_PROPERTIES ∧
     "fooBar" ∉ KEYFRAME_ANIMATION_PROPERTIES ∧
     (∀ f ∈ (sequencedKeyframes testEnv.read badCfg).take 1, compilableFrame f)) ∧
    (∃ s₀, startAnim testEnv badCfg = .ok s₀ ∧
      (runSteps testEnv 1 s₀).status = .failed (.notAnimatable "fooBar") ∧
      (runSteps testEnv 1 s₀).events = .animationBegin :: beginEndEvents 0 1 ∧
      errMsg (.notAnimatable "fooBar") =
        "Property " ++ "fooBar" ++ " could not be animated. Animateable properties: " ++
          String.intercalate ", " KEYFRAME_ANIMATION_PROPERTIES) :=
  ⟨⟨rfl, by decide, by decide, by decide, by decide, by decide, by decide⟩,
   propertyNotAnimatable_at_frame_entry testEnv badCfg rfl (by decide) 1 [] []
     "fooBar" (JsVal.num 1) (by decide) (by decide) (by decide) (by decide)
     (by decide)⟩

/-! ## Claim theorems about the synthetic closing keyframe (C5)

The main subtlety is that the guard `extraFrame[name]` of the capture loop is
keyed by the raw keyframe property name while writes are keyed by the
accessor's concrete style names.  The development shows every written key is
a fixed point of camel-casing and is not a shorthand key, so a truthy guard
entails that the accessor expansion of that name is exactly the one already
captured entry. -/

lemma toNat_upperChar (b : Char) (h₁ : 97 ≤ b.toNat) (h₂ : b.toNat ≤ 122) :
    (Char.ofNat (b.toNat - 32)).toNat = b.toNat - 32 := by
  have hv : b.toNat - 32 < 0xd800 := by omega
  rw [Char.ofNat, dif_pos (Or.inl hv)]
  rfl

/-- Absence of a hyphen directly followed by a lowercase letter: the
configurations on which the camel-casing replacement acts. -/
def noHyphenLower : List Char → Prop
  | [] => True
  | [_] => True
  | a :: b :: r => (a = '-' → ¬ (97 ≤ b.toNat ∧ b.toNat ≤ 122)) ∧ noHyphenLower (b :: r)

lemma noHL_cons_of (x : Char) (t : List Char)
    (hx : ∀ b, t.head? = some b → x = '-' → ¬ (97 ≤ b.toNat ∧ b.toNat ≤ 122))
    (ht : noHyphenLower t) : noHyphenLower (x :: t) := by
  cases t with
  | nil => trivial
  | cons b r => exact ⟨fun hxe => hx b rfl hxe, ht⟩

lemma noHL_tail {x : Char} {t : List Char} (h : noHyphenLower (x :: t)) :
    noHyphenLower t := by
  cases t with
  | nil => trivial
  | cons b r => exact h.2

lemma camelChars_dash_lower (b : Char) (r₂ : List Char)
    (hb : (97 ≤ b.toNat && b.toNat ≤ 122) = true) :
    camelChars ('-' :: b :: r₂) = Char.ofNat (b.toNat - 32) :: camelChars r₂ := by
  simp [camelChars, hb]

lemma camelChars_dash_notlower (b : Char) (r₂ : List Char)
    (hb : (97 ≤ b.toNat && b.toNat ≤ 122) = false) :
    camelChars ('-' :: b :: r₂) = '-' :: camelChars (b :: r₂) := by
  rw [camelChars]
  simp [hb]

lemma camelChars_cons_ne (c : Char) (r : List Char) (hc : ¬ c = '-') :
    camelChars (c :: r) = c :: camelChars r := by
  rw [camelChars.eq_def]
  simp [hc]

lemma camelChars_head_not_lower (c : Char) (r : List Char)
    (hc : ¬ (97 ≤ c.toNat ∧ c.toNat ≤ 122)) :
    ∀ x, (camelChars (c :: r)).head? = some x → ¬ (97 ≤ x.toNat ∧ x.toNat ≤ 122) := by
  intro x hx
  by_cases hdash : c = '-'
  · subst hdash
    cases r with
    | nil =>
      have : x = '-' := by
        simpa [camelChars] using hx.symm
      subst this
      decide
    | cons b r₂ =>
      by_cases hb : (97 ≤ b.toNat && b.toNat ≤ 122) = true
      · rw [camelChars_dash_lower b r₂ hb] at hx
        have hxe : x = Char.ofNat (b.toNat - 32) := by
          simpa using hx.symm
        subst hxe
        simp only [Bool.and_eq_true, decide_eq_true_eq] at hb
        have ht := toNat_upperChar b hb.1 hb.2
        intro hcon
        omega
      · rw [camelChars_dash_notlower b r₂ (by rwa [Bool.not_eq_true] at hb)] at hx
        have hxe : x = '-' := by
          simpa using hx.symm
        subst hxe
        decide
  · rw [camelChars_cons_ne c r hdash] at hx
    have hxe : x = c := by
      simpa using hx.symm
    subst hxe
    exact hc

lemma camelChars_noHL (l : List Char) : noHyphenLower (camelChars l) := by
  induction l using camelChars.induct with
  | case1 => trivial
  | case2 => exact trivial
  | case3 b r₂ hb ih =>
    rw [camelChars_dash_lower b r₂ hb]
    refine noHL_cons_of _ _ ?_ ih
    intro x hx hdash
    exfalso
    simp only [Bool.and_eq_true, decide_eq_true_eq] at hb
    have ht := toNat_upperChar b hb.1 hb.2
    rw [hdash] at ht
    have h45 : ('-').toNat = 45 := rfl
    omega
  | case4 b r₂ hb ih =>
    rw [camelChars_dash_notlower b r₂ (by rwa [Bool.not_eq_true] at hb)]
    have hb' : ¬ (97 ≤ b.toNat ∧ b.toNat ≤ 122) := by
      intro hcon
      simp [hcon.1, hcon.2] at hb
    exact noHL_cons_of _ _ (fun x hx _ => camelChars_head_not_lower b r₂ hb' x hx) ih
  | case5 c r hc ih =>
    rw [camelChars_cons_ne c r hc]
    exact noHL_cons_of _ _ (fun x _ hdash => absurd hdash hc) ih

lemma camelChars_fix_of_noHL (l : List Char) (h : noHyphenLower l) :
    camelChars l = l := by
  induction l using camelChars.induct with
  | case1 => rfl
  | case2 => rfl
  | case3 b r₂ hb ih =>
    exfalso
    simp only [Bool.and_eq_true, decide_eq_true_eq] at hb
    exact h.1 rfl hb
  | case4 b r₂ hb ih =>
    rw [camelChars_dash_notlower b r₂ (by rwa [Bool.not_eq_true] at hb)]
    rw [ih (noHL_tail h)]
  | case5 c r hc ih =>
    rw [camelChars_cons_ne c r hc, ih (noHL_tail h)]

/-- The camel-casing replacement is idempotent: its output never contains a
hyphen followed by a lowercase letter. -/
lemma camelChars_idem (l : List Char) : camelChars (camelChars l) = camelChars l :=
  camelChars_fix_of_noHL _ (camelChars_noHL l)

/-- The canonical captured value of a concrete style name: the coerced raw
read. -/
def canonicalVal (read : String → String) (sn : String) : JsVal :=
  coerceStyleVal (read sn)

/-- What holds of every entry the capture loop ever writes: the canonical
value, under a key that camel-casing fixes and that is not a shorthand
key. -/
def goodEntry (read : String → String) (q : String × JsVal) : Prop :=
  q.2 = canonicalVal read q.1 ∧ camelChars q.1.data = q.1.data ∧
    multiProperties q.1 = none

/-- What holds of every pair the style accessor reports. -/
def goodStyle (read : String → String) (q : String × String) : Prop :=
  q.2 = read q.1 ∧ camelChars q.1.data = q.1.data ∧ multiProperties q.1 = none

/-- Invariant of the synthetic frame under construction. -/
def invKF (read : String → String) (e : Keyframe) : Prop :=
  ∀ q ∈ e, goodEntry read q

/-- Presence of a key in the frame under construction. -/
def hasKey (e : Keyframe) (n : String) : Prop :=
  (e.find? (fun p => p.1 = n)).isSome = true

lemma camelcase_fix (s : String) (h : camelChars s.data = s.data) :
    camelcaseString s = s := by
  unfold camelcaseString
  rw [h]

lemma goodStyle_pair (read : String → String) (name : String)
    (h₁ : camelChars name.data = name.data) (h₂ : multiProperties name = none) :
    goodStyle read (name, read name) := ⟨rfl, h₁, h₂⟩

lemma getStyle_goodStyle (read : String → String) (n : String) :
    ∀ q ∈ getStyle read n, goodStyle read q := by
  intro q hq
  unfold getStyle at hq
  by_cases hbw : camelcaseString n = "borderWidth"
  · rw [hbw] at hq
    rw [show multiProperties "borderWidth" =
      some ["borderTopWidth", "borderRightWidth", "borderBottomWidth",
        "borderLeftWidth"] from by decide] at hq
    simp only [List.mem_map] at hq
    obtain ⟨a, ha, rfl⟩ := hq
    simp only [List.mem_cons, List.not_mem_nil, or_false] at ha
    rcases ha with rfl | rfl | rfl | rfl <;>
      exact goodStyle_pair read _ (by decide) (by decide)
  · by_cases hbc : camelcaseString n = "borderColor"
    · rw [hbc] at hq
      rw [show multiProperties "borderColor" =
        some ["borderTopColor", "borderRightColor", "borderBottomColor",
          "borderLeftColor"] from by decide] at hq
      simp only [List.mem_map] at hq
      obtain ⟨a, ha, rfl⟩ := hq
      simp only [List.mem_cons, List.not_mem_nil, or_false] at ha
      rcases ha with rfl | rfl | rfl | rfl <;>
        exact goodStyle_pair read _ (by decide) (by decide)
    · have hm : multiProperties (camelcaseString n) = none := by
        unfold multiProperties
        rw [if_neg hbw, if_neg hbc]
      rw [hm] at hq
      unfold getStyleBase at hq
      simp only [List.mem_singleton] at hq
      subst hq
      refine ⟨rfl, ?_, hm⟩
      exact camelChars_idem n.data

lemma setKF_cons (k : String) (w : JsVal) (r : Keyframe) (n : String) (v : JsVal) :
    setKF ((k, w) :: r) n v =
      if k = n then (k, v) :: r else (k, w) :: setKF r n v := rfl

lemma lookupKF_cons (k : String) (w : JsVal) (r : Keyframe) (n : String) :
    lookupKF ((k, w) :: r) n = if k = n then w else lookupKF r n := by
  unfold lookupKF
  by_cases h : k = n
  · simp [List.find?_cons, h]
  · simp [List.find?_cons, h]

lemma hasKey_cons (k : String) (w : JsVal) (r : Keyframe) (n : String) :
    hasKey ((k, w) :: r) n ↔ (k = n ∨ hasKey r n) := by
  unfold hasKey
  by_cases h : k = n
  · simp [List.find?_cons, h]
  · simp [List.find?_cons, h]

lemma lookupKF_setKF_self (e : Keyframe) (n : String) (v : JsVal) :
    lookupKF (setKF e n v) n = v := by
  induction e with
  | nil => simp [setKF, lookupKF]
  | cons q e ih =>
    obtain ⟨k, w⟩ := q
    rw [setKF_cons]
    by_cases h : k = n
    · rw [if_pos h, lookupKF_cons, if_pos h]
    · rw [if_neg h, lookupKF_cons, if_neg h]
      exact ih

lemma lookupKF_setKF_ne (e : Keyframe) (n m : String) (v : JsVal) (h : m ≠ n) :
    lookupKF (setKF e n v) m = lookupKF e m := by
  induction e with
  | nil =>
    have h' : ¬ (n = m) := fun hc => h hc.symm
    simp [setKF, lookupKF, List.find?_cons, h']
  | cons q e ih =>
    obtain ⟨k, w⟩ := q
    rw [setKF_cons]
    by_cases hk : k = n
    · rw [if_pos hk, lookupKF_cons, lookupKF_cons]
      have hkm : ¬ k = m := fun hc => h (hc ▸ hk)
      rw [if_neg hkm, if_neg hkm]
    · rw [if_neg hk, lookupKF_cons, lookupKF_cons]
      by_cases hkm : k = m
      · rw [if_pos hkm, if_pos hkm]
      · rw [if_neg hkm, if_neg hkm]
        exact ih

lemma hasKey_setKF_self (e : Keyframe) (n : String) (v : JsVal) :
    hasKey (setKF e n v) n := by
  induction e with
  | nil => simp [setKF, hasKey, List.find?_cons]
  | cons q e ih =>
    obtain ⟨k, w⟩ := q
    rw [setKF_cons]
    by_cases h : k = n
    · rw [if_pos h, hasKey_cons]
      exact Or.inl h
    · rw [if_neg h, hasKey_cons]
      exact Or.inr ih

lemma hasKey_setKF_mono (e : Keyframe) (n m : String) (v : JsVal)
    (h : hasKey e m) : hasKey (setKF e n v) m := by
  induction e with
  | nil => exact absurd h (by simp [hasKey])
  | cons q e ih =>
    obtain ⟨k, w⟩ := q
    rw [setKF_cons]
    rw [hasKey_cons] at h
    by_cases hk : k = n
    · rw [if_pos hk, hasKey_cons]
      rcases h with h | h
      · exact Or.inl h
      · exact Or.inr h
    · rw [if_neg hk, hasKey_cons]
      rcases h with h | h
      · exact Or.inl h
      · exact Or.inr (ih h)

lemma mem_setKF (e : Keyframe) (n : String) (v : JsVal) :
    ∀ q ∈ setKF e n v, q ∈ e ∨ q = (n, v) := by
  induction e with
  | nil =>
    intro q hq
    simp [setKF] at hq
    exact Or.inr hq
  | cons p e ih =>
    obtain ⟨k, w⟩ := p
    intro q hq
    rw [setKF_cons] at hq
    by_cases hk : k = n
    · rw [if_pos hk] at hq
      rcases List.mem_cons.mp hq with rfl | hq
      · subst hk
        exact Or.inr rfl
      · exact Or.inl (List.mem_cons_of_mem _ hq)
    · rw [if_neg hk] at hq
      rcases List.mem_cons.mp hq with rfl | hq
      · exact Or.inl (List.mem_cons_self _ _)
      · rcases ih q hq with h | h
        · exact Or.inl (List.mem_cons_of_mem _ h)
        · exact Or.inr h

lemma truthy_lookup_hasKey (e : Keyframe) (n : String)
    (h : truthy (lookupKF e n) = true) : hasKey e n := by
  unfold hasKey
  unfold lookupKF at h
  cases hf : e.find? (fun p => p.1 = n) with
  | none =>
    rw [hf] at h
    simp [truthy] at h
  | some q => rfl

lemma lookupKF_of_invKF (read : String → String) (e : Keyframe) (sn : String)
    (hinv : invKF read e) (hk : hasKey e sn) :
    lookupKF e sn = canonicalVal read sn := by
  unfold hasKey at hk
  cases hf : e.find? (fun p => p.1 = sn) with
  | none => rw [hf] at hk; simp at hk
  | some q =>
    have hmem : q ∈ e := List.mem_of_find?_eq_some hf
    have hpred : q.1 = sn := by
      have := List.find?_some hf
      simpa using this
    have hgood := hinv q hmem
    unfold lookupKF
    rw [hf]
    show q.2 = canonicalVal read sn
    rw [hgood.1, hpred]

lemma findEntry_of_hasKey (read : String → String) (e : Keyframe) (sn : String)
    (hinv : invKF read e) (hk : hasKey e sn) :
    camelChars sn.data = sn.data ∧ multiProperties sn = none := by
  unfold hasKey at hk
  cases hf : e.find? (fun p => p.1 = sn) with
  | none => rw [hf] at hk; simp at hk
  | some q =>
    have hmem : q ∈ e := List.mem_of_find?_eq_some hf
    have hpred : q.1 = sn := by
      have := List.find?_some hf
      simpa using this
    have hgood := hinv q hmem
    rw [← hpred]
    exact ⟨hgood.2.1, hgood.2.2⟩

lemma invKF_setKF (read : String → String) (e : Keyframe) (n : String) (v : JsVal)
    (hinv : invKF read e) (hgood : goodEntry read (n, v)) :
    invKF read (setKF e n v) := by
  intro q hq
  rcases mem_setKF e n v q hq with h | rfl
  · exact hinv q h
  · exact hgood

lemma captureStyles_cons (e : Keyframe) (p : String × String)
    (styles : List (String × String)) :
    captureStyles e (p :: styles) =
      captureStyles (setKF e p.1 (coerceStyleVal p.2)) styles := rfl

lemma invKF_captureStyles (read : String → String) :
    ∀ (styles : List (String × String)) (e : Keyframe),
      invKF read e → (∀ q ∈ styles, goodStyle read q) →
      invKF read (captureStyles e styles) := by
  intro styles
  induction styles with
  | nil =>
    intro e hinv _
    exact hinv
  | cons p styles ih =>
    intro e hinv hall
    rw [captureStyles_cons]
    have hp := hall p (by simp)
    refine ih _ (invKF_setKF read e p.1 _ hinv ?_) (fun q hq => hall q (by simp [hq]))
    exact ⟨by rw [hp.1]; rfl, hp.2.1, hp.2.2⟩

lemma hasKey_captureStyles_mono :
    ∀ (styles : List (String × String)) (e : Keyframe) (m : String),
      hasKey e m → hasKey (captureStyles e styles) m := by
  intro styles
  induction styles with
  | nil =>
    intro e m h
    exact h
  | cons p styles ih =>
    intro e m h
    rw [captureStyles_cons]
    exact ih _ m (hasKey_setKF_mono e p.1 m _ h)

lemma hasKey_captureStyles_new :
    ∀ (styles : List (String × String)) (e : Keyframe),
      ∀ q ∈ styles, hasKey (captureStyles e styles) q.1 := by
  intro styles
  induction styles with
  | nil =>
    intro e q hq
    simp at hq
  | cons p styles ih =>
    intro e q hq
    rw [captureStyles_cons]
    rcases List.mem_cons.mp hq with rfl | hq
    · exact hasKey_captureStyles_mono styles _ q.1 (hasKey_setKF_self e q.1 _)
    · exact ih _ q hq

lemma invKF_extraStep (read : String → String) (e : Keyframe) (p : String × JsVal)
    (hinv : invKF read e) : invKF read (extraStep read e p) := by
  unfold extraStep
  by_cases hg : truthy (lookupKF e p.1) = true
  · rw [if_pos hg]
    exact hinv
  · rw [if_neg hg]
    exact invKF_captureStyles read _ e hinv (getStyle_goodStyle read p.1)

lemma hasKey_extraStep_mono (read : String → String) (e : Keyframe)
    (p : String × JsVal) (m : String) (h : hasKey e m) :
    hasKey (extraStep read e p) m := by
  unfold extraStep
  by_cases hg : truthy (lookupKF e p.1) = true
  · rw [if_pos hg]
    exact h
  · rw [if_neg hg]
    exact hasKey_captureStyles_mono _ e m h

lemma invKF_foldExtra (read : String → String) :
    ∀ (f : List (String × JsVal)) (e : Keyframe),
      invKF read e → invKF read (f.foldl (extraStep read) e) := by
  intro f
  induction f with
  | nil =>
    intro e hinv
    exact hinv
  | cons p f ih =>
    intro e hinv
    rw [List.foldl_cons]
    exact ih _ (invKF_extraStep read e p hinv)

lemma hasKey_foldExtra_mono (read : String → String) :
    ∀ (f : List (String × JsVal)) (e : Keyframe) (m : String),
      hasKey e m → hasKey (f.foldl (extraStep read) e) m := by
  intro f
  induction f with
  | nil =>
    intro e m h
    exact h
  | cons p f ih =>
    intro e m h
    rw [List.foldl_cons]
    exact ih _ m (hasKey_extraStep_mono read e p m h)

lemma hasKey_extraStep_entry (read : String → String) (e : Keyframe)
    (name : String) (v : JsVal) (sn : String) (sv : String)
    (hinv : invKF read e) (hq : (sn, sv) ∈ getStyle read name) :
    hasKey (extraStep read e (name, v)) sn := by
  unfold extraStep
  by_cases hg : truthy (lookupKF e (name, v).1) = true
  · rw [if_pos hg]
    have hk : hasKey e name := truthy_lookup_hasKey e name hg
    obtain ⟨hfix, hmulti⟩ := findEntry_of_hasKey read e name hinv hk
    have hgs : getStyle read name = [(name, read name)] := by
      unfold getStyle
      rw [camelcase_fix name hfix, hmulti]
      unfold getStyleBase
      rw [camelcase_fix name hfix]
    rw [hgs] at hq
    simp only [List.mem_singleton, Prod.mk.injEq] at hq
    rw [hq.1]
    exact hk
  · rw [if_neg hg]
    exact hasKey_captureStyles_new _ e (sn, sv) hq

lemma hasKey_foldExtra_entry (read : String → String) (f : Keyframe) (e : Keyframe)
    (name : String) (v : JsVal) (sn : String) (sv : String)
    (hinv : invKF read e) (hmem : (name, v) ∈ f)
    (hq : (sn, sv) ∈ getStyle read name) :
    hasKey (f.foldl (extraStep read) e) sn := by
  obtain ⟨f₁, f₂, rfl⟩ := List.append_of_mem hmem
  rw [List.foldl_append, List.foldl_cons]
  refine hasKey_foldExtra_mono read f₂ _ sn ?_
  exact hasKey_extraStep_entry read _ name v sn sv (invKF_foldExtra read f₁ e hinv) hq

lemma addFrameNames_eq (read : String → String) (e : Keyframe) (f : Keyframe) :
    addFrameNames read e f = f.foldl (extraStep read) e := rfl

lemma invKF_foldFrames (read : String → String) :
    ∀ (frames : List Keyframe) (e : Keyframe),
      invKF read e → invKF read (frames.foldl (addFrameNames read) e) := by
  intro frames
  induction frames with
  | nil =>
    intro e hinv
    exact hinv
  | cons f frames ih =>
    intro e hinv
    rw [List.foldl_cons]
    exact ih _ (by rw [addFrameNames_eq]; exact invKF_foldExtra read f e hinv)

lemma hasKey_foldFrames_mono (read : String → String) :
    ∀ (frames : List Keyframe) (e : Keyframe) (m : String),
      hasKey e m → hasKey (frames.foldl (addFrameNames read) e) m := by
  intro frames
  induction frames with
  | nil =>
    intro e m h
    exact h
  | cons f frames ih =>
    intro e m h
    rw [List.foldl_cons]
    exact ih _ m (by rw [addFrameNames_eq]; exact hasKey_foldExtra_mono read f e m h)

lemma hasKey_foldFrames_entry (read : String → String) (frames : List Keyframe)
    (e : Keyframe) (f : Keyframe) (name : String) (v : JsVal) (sn : String)
    (sv : String) (hinv : invKF read e) (hf : f ∈ frames)
    (hmem : (name, v) ∈ f) (hq : (sn, sv) ∈ getStyle read name) :
    hasKey (frames.foldl (addFrameNames read) e) sn := by
  obtain ⟨l₁, l₂, rfl⟩ := List.append_of_mem hf
  rw [List.foldl_append, List.foldl_cons]
  refine hasKey_foldFrames_mono read l₂ _ sn ?_
  rw [addFrameNames_eq]
  exact hasKey_foldExtra_entry read f _ name v sn sv
    (invKF_foldFrames read l₁ e hinv) hmem hq

/-- C5: when `loops > 0`, `animate()` appends exactly one synthetic closing
keyframe after the original list; its `duration` and `timing` come from the
Animation defaults, falling back to the first keyframe's own values exactly
when the defaults are falsy; and for every property name appearing in any
original keyframe, every concrete style name the accessor reports for it is
present in the synthetic frame with the entity's current value (the raw read
of that style, integer-coerced where parseable) — captured before playback
starts. -/
theorem synthetic_closing_keyframe (read : String → String) (cfg : AnimConfig)
    (hl : cfg.loops > 0) :
    sequencedKeyframes read cfg = cfg.keyframes ++ [buildExtraFrame read cfg] ∧
    lookupKF (buildExtraFrame read cfg) "duration" =
      (if cfg.duration ≠ 0 then JsVal.num cfg.duration
       else lookupKF (cfg.keyframes.headD []) "duration") ∧
    lookupKF (buildExtraFrame read cfg) "timing" =
      (if cfg.timing ≠ "" then JsVal.str cfg.timing
       else lookupKF (cfg.keyframes.headD []) "timing") ∧
    ∀ f ∈ cfg.keyframes, ∀ p ∈ f, ∀ q ∈ getStyle read p.1,
      q.1 ≠ "duration" → q.1 ≠ "timing" →
      lookupKF (buildExtraFrame read cfg) q.1 = coerceStyleVal (read q.1) ∧
      q.2 = read q.1 := by
  refine ⟨?_, ?_, ?_, ?_⟩
  · unfold sequencedKeyframes
    rw [if_pos hl]
  · simp only [buildExtraFrame]
    rw [lookupKF_setKF_ne _ _ _ _ (by decide), lookupKF_setKF_self]
  · simp only [buildExtraFrame]
    rw [lookupKF_setKF_self]
  · intro f hf p hp q hq hd ht
    have hnil : invKF read ([] : Keyframe) := by
      intro x hx
      simp at hx
    have hbase_inv : invKF read (cfg.keyframes.foldl (addFrameNames read) []) :=
      invKF_foldFrames read cfg.keyframes [] hnil
    have hkey : hasKey (cfg.keyframes.foldl (addFrameNames read) []) q.1 :=
      hasKey_foldFrames_entry read cfg.keyframes [] f p.1 p.2 q.1 q.2 hnil hf
        (by simpa using hp) (by simpa using hq)
    have hgood := getStyle_goodStyle read p.1 q hq
    refine ⟨?_, hgood.1⟩
    simp only [buildExtraFrame]
    rw [lookupKF_setKF_ne _ _ _ _ ht, lookupKF_setKF_ne _ _ _ _ hd]
    exact lookupKF_of_invKF read _ q.1 hbase_inv hkey

/-- C5 witness at the concrete loops-2 configuration. -/
theorem synthetic_closing_keyframe_witness :
    loops2Cfg.loops > 0 ∧
    (sequencedKeyframes testRead loops2Cfg =
        loops2Cfg.keyframes ++ [buildExtraFrame testRead loops2Cfg] ∧
     lookupKF (buildExtraFrame testRead loops2Cfg) "duration" =
       (if loops2Cfg.duration ≠ 0 then JsVal.num loops2Cfg.duration
        else lookupKF (loops2Cfg.keyframes.headD []) "duration") ∧
     lookupKF (buildExtraFrame testRead loops2Cfg) "timing" =
       (if loops2Cfg.timing ≠ "" then JsVal.str loops2Cfg.timing
        else lookupKF (loops2Cfg.keyframes.headD []) "timing") ∧
     ∀ f ∈ loops2Cfg.keyframes, ∀ p ∈ f, ∀ q ∈ getStyle testRead p.1,
       q.1 ≠ "duration" → q.1 ≠ "timing" →
       lookupKF (buildExtraFrame testRead loops2Cfg) q.1 =
           coerceStyleVal (testRead q.1) ∧
       q.2 = testRead q.1) :=
  ⟨by decide, synthetic_closing_keyframe testRead loops2Cfg (by decide)⟩
